import Mathlib

/-!
# SoundSourceFLAC: a pull-based sample reader over libFLAC

A shallow embedding of `src/mixxx/src/soundsourceflac.cpp`.

* The adapter object is the record `SoundSourceFLAC`; every member function is a
  function from the state before the call to the result and the state after it.
* libFLAC and Qt are not part of the repository.  The libFLAC entry points the
  adapter calls are the fields of `LibFLAC`, over an arbitrary type `D` of decoder
  states; the two `QString` functions whose behaviour depends on Unicode tables or
  on floating point are the fields of `QtText`.  The theorems hold for every such
  library.
* The callbacks libFLAC invokes while one of its entry points runs (`flacWrite`,
  `flacMetadata`) are applied by the embedding to the frame or metadata blocks that
  entry point hands over.
* The two sample buffers are modelled by their cells, counted from the base
  address, together with the element count given to `new[]`.  The source indexes
  them without a bounds check and so does the embedding: a store beyond the last
  modelled cell extends the cell list, and whether an index stays below the
  allocated element count is a property to be proved, not a guard.  A run in which
  the cell lists keep the length of their arrays (`InBounds`) is a run of the
  source without overrun; the theorems about buffer contents assume that the
  frames fit the arrays and prove that the run stays in bounds.
* Sample counters (`m_flacBufferLength`, `samplesWritten`, `i`, `blocksize`) are
  natural numbers.  The 32-bit counters of the source wrap only when one call of
  `read` copies `2 ^ 32` samples or more, or when a decode yields `2 ^ 32` samples
  or more; the theorems about `read` and `flacWrite` bound the sizes and the array
  capacity by `UINT_RANGE = 2 ^ 32`, so that they speak of runs on which no
  counter wraps.  Sample values are integers; the narrowing from `FLAC__int32` to
  `FLAC__int16` in `flacWrite` is explicit (`toInt16`), and so is the conversion of
  the seek target to `FLAC__uint64` (`toUInt64`).
* The `qDebug` output is not modelled, and `m_file` is not part of the state: the
  byte-read callback `flacRead` takes the file's `read` as a parameter, a function
  from the requested size to the returned `qint64`.  The width `w` of `size_t` is
  a parameter as well.
-/

namespace SoundSourceFLAC

/-! ## Machine integers -/

/-- Conversion of a 32-bit sample to `FLAC__int16`: the value modulo `2 ^ 16`,
read as a signed number. -/
def toInt16 (v : Int) : Int :=
  (v + 32768) % 65536 - 32768

/-- Conversion of a `long` to `FLAC__uint64`: the value modulo `2 ^ 64`. -/
def toUInt64 (v : Int) : Nat :=
  (v % 18446744073709551616).toNat

/-- Largest value of `long` (LP64). -/
def LONG_MAX : Int := 9223372036854775807

/-- Conversion of a `qint64` to a `size_t` of `w` bits: the value modulo `2 ^ w`. -/
def toSizeT (w : Nat) (v : Int) : Nat :=
  (v % (2 : Int) ^ w).toNat

/-- Conversion of a `size_t` to `qint64`: the value modulo `2 ^ 64`, read as a
signed number. -/
def toInt64 (v : Nat) : Int :=
  ((v : Int) + 9223372036854775808) % 18446744073709551616 - 9223372036854775808

/-- The range of `FLAC__int16`, also the range of `SAMPLE`. -/
def InInt16 (v : Int) : Prop :=
  -32768 ≤ v ∧ v ≤ 32767

instance (v : Int) : Decidable (InInt16 v) := by
  unfold InInt16; infer_instance

/-! ## QString -/

/-- A `QString`, as its sequence of characters. -/
abbrev QString := List Char

/-- `QString::indexOf(c)`: position of the first occurrence, `-1` when there is none. -/
def QString_indexOf : QString → Char → Int
  | [], _ => -1
  | x :: xs, c =>
    if x = c then 0
    else
      let r := QString_indexOf xs c
      if r < 0 then -1 else r + 1

/-- `QString::left(n)`: the `n` leftmost characters; the entire string when `n` is
negative or not smaller than the size. -/
def QString_left (s : QString) (n : Int) : QString :=
  if n < 0 ∨ (s.length : Int) ≤ n then s else s.take n.toNat

/-- `QString::right(n)`: the `n` rightmost characters; the entire string when `n` is
negative or not smaller than the size. -/
def QString_right (s : QString) (n : Int) : QString :=
  if n < 0 ∨ (s.length : Int) ≤ n then s else s.drop (s.length - n.toNat)

/-- The `QString` functions taken as parameters: `toUpper` (Unicode case mapping)
and `toFloat` (text to floating point, into a type `F` of float values). -/
structure QtText (F : Type) where
  toUpper : QString → QString
  toFloat : QString → F

/-! ## libFLAC -/

/-- The `stream_info` part of a STREAMINFO metadata block. -/
structure StreamInfo where
  total_samples : Nat
  channels : Nat
  sample_rate : Nat
  bits_per_sample : Nat
  min_blocksize : Nat
  max_blocksize : Nat
  min_framesize : Nat
  max_framesize : Nat
  deriving DecidableEq, Repr

/-- A `FLAC__StreamMetadata` block, by `type`; a comment block carries its entries
already decoded from UTF-8. -/
inductive StreamMetadata where
  | STREAMINFO (stream_info : StreamInfo)
  | VORBIS_COMMENT (comments : List QString)
  | OTHER
  deriving DecidableEq, Repr

/-- A decoded frame as the write callback receives it: the header fields read by
`flacWrite` and the per-channel sample arrays `buffer[c][i]`. -/
structure Frame where
  channels : Nat
  blocksize : Nat
  buffer : List (List Int)
  deriving DecidableEq, Repr

/-- The element `buffer[c][i]` of a frame. -/
def Frame.sample (frame : Frame) (c i : Nat) : Int :=
  (frame.buffer.getD c []).getD i 0

/-- `FLAC__StreamDecoderWriteStatus`. -/
inductive WriteStatus where
  | CONTINUE
  | ABORT
  deriving DecidableEq, Repr

/-- `FLAC__StreamDecoderReadStatus`. -/
inductive ReadStatus where
  | CONTINUE
  | END_OF_STREAM
  | ABORT
  deriving DecidableEq, Repr

/-- The libFLAC entry points called by the adapter, over decoder states `D`.
Each returns the decoder state after the call and the call's result; an entry
point that runs callbacks also returns what it hands to them: the metadata blocks
for `flacMetadata`, the frame (if any) for `flacWrite`. -/
structure LibFLAC (D : Type) where
  stream_decoder_new : Option D
  set_metadata_respond : D → D × Bool
  init_stream : D → D × Bool
  process_until_end_of_metadata : D → D × List StreamMetadata × Bool
  process_single : D → D × Option Frame × Bool
  seek_absolute : D → Nat → D × Option Frame × Bool

/-- A libFLAC entry point invoked on the decoder session, with the argument
that matters. -/
inductive Call where
  | stream_decoder_new
  | set_metadata_respond
  | init_stream
  | process_until_end_of_metadata
  | finish
  | delete
  | process_single
  | seek_absolute (sample : Nat)
  deriving DecidableEq, Repr

/-! ## The adapter state -/

/-- A `new FLAC__int16[capacity]` array: the element count it was allocated with
and its cells, counted from the base address. -/
structure Buffer where
  capacity : Nat
  cells : List Int
  deriving DecidableEq, Repr

/-- The array `new FLAC__int16[n]`. -/
def Buffer.alloc (n : Nat) : Buffer :=
  ⟨n, List.replicate n 0⟩

/-- The store `b[idx] = v`, which the source makes without a bounds check.  Inside
the array (`idx < capacity`, with `cells.length = capacity`) it replaces a cell.  A
store at an index at or past the end is an overrun of the array in the source; the
model records it by letting the cell list grow past `capacity`, which is how the
overrun is exhibited.  What the theorems state about the contents of the buffers
is stated for runs in which `cells.length = capacity` holds before and after. -/
def Buffer.store (b : Buffer) (idx : Nat) (v : Int) : Buffer :=
  { b with
    cells :=
      if idx < b.cells.length then b.cells.set idx v
      else b.cells ++ List.replicate (idx - b.cells.length) 0 ++ [v] }

/-- The load `b[idx]`. -/
def Buffer.load (b : Buffer) (idx : Nat) : Int :=
  b.cells.getD idx 0

/-- The call `memcpy(dst, &src[start], n * sizeof(src[0]))`: the cells
`dst[0 .. n)` become `src[start .. start + n)`.  The two arrays are separate
allocations; the copy is the one of the source as long as `start + n` and `n` do
not exceed the element counts of `src` and `dst`. -/
def Buffer.memcpy (dst : Buffer) (src : Buffer) (start n : Nat) : Buffer :=
  { dst with
    cells := (List.range n).map (fun j => src.load (start + j)) ++ dst.cells.drop n }

/-- Return values `OK` and `ERR` of the `SoundSource` interface. -/
inductive Result where
  | OK
  | ERR
  deriving DecidableEq, Repr

end SoundSourceFLAC

/-- The members of `SoundSourceFLAC` and of its base class `SoundSource` that the
member functions below touch.  `m_decoder` is `none` for a null pointer and
otherwise the state of the decoder object; a buffer pointer is `none` for a null
pointer.  `calls` is a ghost field: the libFLAC entry points invoked so far. -/
structure SoundSourceFLAC (D F : Type) where
  m_decoder : Option D
  m_samples : Nat
  m_bps : Nat
  m_minBlocksize : Nat
  m_maxBlocksize : Nat
  m_minFramesize : Nat
  m_maxFramesize : Nat
  m_flacBuffer : Option SoundSourceFLAC.Buffer
  m_flacBufferLength : Nat
  m_leftoverBuffer : Option SoundSourceFLAC.Buffer
  m_leftoverBufferLength : Nat
  m_tags : List SoundSourceFLAC.QString
  m_iChannels : Nat
  m_iSampleRate : Nat
  m_sArtist : SoundSourceFLAC.QString
  m_sTitle : SoundSourceFLAC.QString
  m_sAlbum : SoundSourceFLAC.QString
  m_sComment : SoundSourceFLAC.QString
  m_sYear : SoundSourceFLAC.QString
  m_sGenre : SoundSourceFLAC.QString
  m_sTrackNumber : SoundSourceFLAC.QString
  m_fBPM : F
  calls : List SoundSourceFLAC.Call

namespace SoundSourceFLAC

variable {D F : Type}

/-- The constructor: no session, no buffers, all counters zero.  The members of
the base class start from the values `base` gives them. -/
def new (base : SoundSourceFLAC D F) : SoundSourceFLAC D F :=
  { base with
    m_decoder := none
    m_samples := 0
    m_bps := 0
    m_flacBuffer := none
    m_flacBufferLength := 0
    m_leftoverBuffer := none
    m_leftoverBufferLength := 0 }

/-! ## Callbacks -/

/-- The statement `m_flacBuffer[m_flacBufferLength++] = v` of `flacWrite`, with the
narrowing of `v` to `FLAC__int16`. -/
def push (s : SoundSourceFLAC D F) (v : Int) : SoundSourceFLAC D F :=
  { s with
    m_flacBuffer := s.m_flacBuffer.map fun b => b.store s.m_flacBufferLength (toInt16 v)
    m_flacBufferLength := s.m_flacBufferLength + 1 }

/-- `SoundSourceFLAC::flacWrite`: resets the length, then one of the two loops over
`i < blocksize`, each storing two samples per step. -/
def flacWrite (s : SoundSourceFLAC D F) (frame : Frame) : SoundSourceFLAC D F × WriteStatus :=
  let s0 := { s with m_flacBufferLength := 0 }
  let s1 :=
    if frame.channels > 1 then
      (List.range frame.blocksize).foldl
        (fun st i => push (push st (frame.sample 0 i)) (frame.sample 1 i)) s0
    else
      (List.range frame.blocksize).foldl
        (fun st i => push (push st (frame.sample 0 i)) (frame.sample 0 i)) s0
  (s1, WriteStatus.CONTINUE)

/-- `SoundSourceFLAC::flacMetadata`. -/
def flacMetadata (s : SoundSourceFLAC D F) (metadata : StreamMetadata) : SoundSourceFLAC D F :=
  match metadata with
  | .STREAMINFO info =>
    { s with
      m_samples := info.total_samples
      m_iChannels := info.channels
      m_iSampleRate := info.sample_rate
      m_bps := info.bits_per_sample
      m_minBlocksize := info.min_blocksize
      m_maxBlocksize := info.max_blocksize
      m_minFramesize := info.min_framesize
      m_maxFramesize := info.max_framesize }
  | .VORBIS_COMMENT comments => { s with m_tags := s.m_tags ++ comments }
  | .OTHER => s

/-- The write callback applied to the frame an entry point handed over, if any. -/
def deliver (s : SoundSourceFLAC D F) (frame : Option Frame) : SoundSourceFLAC D F :=
  match frame with
  | none => s
  | some f => (flacWrite s f).1

/-- `SoundSourceFLAC::flacRead`, for a `size_t` of `w` bits.  `fileRead maxSize` is
the `qint64` that `m_file.read((char*) buffer, maxSize)` returns and `bytes` is the
value of `*bytes` on entry.  The result is the value of `*bytes` on return and the
status.  The assignment converts the file's result to `size_t`, and the three
tests are made on that unsigned value, in the order of the source. -/
def flacRead (w : Nat) (fileRead : Int → Int) (bytes : Nat) : Nat × ReadStatus :=
  let bytes := toSizeT w (fileRead (toInt64 bytes))
  if bytes > 0 then (bytes, ReadStatus.CONTINUE)
  else if bytes = 0 then (bytes, ReadStatus.END_OF_STREAM)
  else (bytes, ReadStatus.ABORT)

/-! ## Calls into libFLAC on the session -/

/-- The call `FLAC__stream_decoder_process_single(m_decoder)` with the write callback
it triggers: the state afterwards and the returned flag.  `read` makes the call
only behind its guard `if (!m_decoder) return 0`, so the first branch is not
reached from it. -/
def process_single (api : LibFLAC D) (s : SoundSourceFLAC D F) : SoundSourceFLAC D F × Bool :=
  match s.m_decoder with
  | none => (s, false)
  | some d =>
    let r := api.process_single d
    (deliver { s with m_decoder := some r.1, calls := s.calls ++ [Call.process_single] } r.2.1,
      r.2.2)

/-- The calls `FLAC__stream_decoder_finish(m_decoder)`,
`FLAC__stream_decoder_delete(m_decoder)` and `m_decoder = NULL`. -/
def releaseDecoder (s : SoundSourceFLAC D F) : SoundSourceFLAC D F :=
  { s with m_decoder := none, calls := s.calls ++ [Call.finish, Call.delete] }

/-! ## Member functions -/

/-- `SoundSourceFLAC::open` (`open` is a reserved word of Lean, hence the name).
The flags returned by the libFLAC calls are tested as the source tests them; the
metadata callback runs on every block the scan hands over, before the scan's
result is looked at. -/
def flacOpen (api : LibFLAC D) (s : SoundSourceFLAC D F) : Result × SoundSourceFLAC D F :=
  let s := { s with calls := s.calls ++ [Call.stream_decoder_new] }
  match api.stream_decoder_new with
  | none => (Result.ERR, { s with m_decoder := none })
  | some d0 =>
    let r1 := api.set_metadata_respond d0
    let s := { s with m_decoder := some r1.1, calls := s.calls ++ [Call.set_metadata_respond] }
    if !r1.2 then (Result.ERR, s)
    else
      let r2 := api.init_stream r1.1
      let s := { s with m_decoder := some r2.1, calls := s.calls ++ [Call.init_stream] }
      if !r2.2 then (Result.ERR, releaseDecoder s)
      else
        let r3 := api.process_until_end_of_metadata r2.1
        let s := r3.2.1.foldl flacMetadata
          { s with
            m_decoder := some r3.1
            calls := s.calls ++ [Call.process_until_end_of_metadata] }
        if !r3.2.2 then (Result.ERR, releaseDecoder s)
        else if s.m_bps ≠ 16 then (Result.ERR, releaseDecoder s)
        else
          let s :=
            if s.m_flacBuffer.isNone then
              { s with m_flacBuffer := some (Buffer.alloc (s.m_maxBlocksize * s.m_iChannels)) }
            else s
          let s :=
            if s.m_leftoverBuffer.isNone then
              { s with m_leftoverBuffer := some (Buffer.alloc (s.m_maxBlocksize * s.m_iChannels)) }
            else s
          (Result.OK, s)

/-- `SoundSourceFLAC::seek`. -/
def seek (api : LibFLAC D) (s : SoundSourceFLAC D F) (filepos : Int) : Int × SoundSourceFLAC D F :=
  match s.m_decoder with
  | none => (0, s)
  | some d =>
    let target := toUInt64 (Int.tdiv filepos 2)
    let r := api.seek_absolute d target
    let s := deliver { s with m_decoder := some r.1, calls := s.calls ++ [Call.seek_absolute target] } r.2.1
    (filepos, { s with m_leftoverBufferLength := 0 })

/-- The local variables of `read` together with the adapter: `destBuffer` holds the
samples stored so far at `destBuffer[0 .. samplesWritten)`. -/
structure ReadLocals (D F : Type) where
  self : SoundSourceFLAC D F
  samplesWritten : Nat
  i : Nat
  destBuffer : List Int

/-- The two statements `destBuffer[samplesWritten++] = m_flacBuffer[i++]` and
`--m_flacBufferLength` that end an iteration of the loop of `read`. -/
def copySample (st : ReadLocals D F) : ReadLocals D F :=
  { self := { st.self with m_flacBufferLength := st.self.m_flacBufferLength - 1 }
    samplesWritten := st.samplesWritten + 1
    i := st.i + 1
    destBuffer := st.destBuffer ++ [(st.self.m_flacBuffer.map fun b => b.load st.i).getD 0] }

/-- The loop `while (samplesWritten < size)` of `read`.  The first argument is
`size - samplesWritten`: the loop condition holds exactly when it is positive, and
every iteration that does not leave through `break` increments `samplesWritten`.
This is the loop of the source for `size < 2 ^ 32`, where the `unsigned int`
`samplesWritten` cannot wrap before it reaches `size`; the theorems about `read`
carry that bound on every size they speak of. -/
def readLoop (api : LibFLAC D) : Nat → ReadLocals D F → ReadLocals D F
  | 0, st => st
  | n + 1, st =>
    if st.self.m_flacBufferLength = 0 then
      let r := process_single api st.self
      let st1 := { st with self := r.1, i := 0 }
      if !r.2 then st1
      else if r.1.m_flacBufferLength = 0 then st1
      else readLoop api n (copySample st1)
    else readLoop api n (copySample st)

/-- The block after the loop of `read`: when samples are left, they are copied to
`m_leftoverBuffer` and from there to the start of `m_flacBuffer`. -/
def compact (s : SoundSourceFLAC D F) (i : Nat) : SoundSourceFLAC D F :=
  if s.m_flacBufferLength ≠ 0 then
    match s.m_flacBuffer, s.m_leftoverBuffer with
    | some fb, some lb =>
      let lb1 := lb.memcpy fb i s.m_flacBufferLength
      { s with
        m_leftoverBuffer := some lb1
        m_flacBuffer := some (fb.memcpy lb1 0 s.m_flacBufferLength) }
    | _, _ => s
  else s

/-- `SoundSourceFLAC::read`: the returned count, the samples stored at
`destination[0 .. count)`, and the state afterwards. -/
def read (api : LibFLAC D) (s : SoundSourceFLAC D F) (size : Nat) :
    (Nat × List Int) × SoundSourceFLAC D F :=
  match s.m_decoder with
  | none => ((0, []), s)
  | some _ =>
    let st := readLoop api size { self := s, samplesWritten := 0, i := 0, destBuffer := [] }
    ((st.samplesWritten, st.destBuffer), compact st.self st.i)

/-- `SoundSourceFLAC::length`. -/
def length (s : SoundSourceFLAC D F) : Nat :=
  s.m_samples * s.m_iChannels

/-- `SoundSourceFLAC::setTag`. -/
def setTag (qt : QtText F) (s : SoundSourceFLAC D F) (tag : QString) : SoundSourceFLAC D F :=
  let key := qt.toUpper (QString_left tag (QString_indexOf tag '='))
  let value := QString_right tag ((tag.length : Int) - QString_indexOf tag '=' - 1)
  if key = "ARTIST".toList then { s with m_sArtist := value }
  else if key = "TITLE".toList then { s with m_sTitle := value }
  else if key = "ALBUM".toList then { s with m_sAlbum := value }
  else if key = "COMMENT".toList then { s with m_sComment := value }
  else if key = "DATE".toList then { s with m_sYear := value }
  else if key = "GENRE".toList then { s with m_sGenre := value }
  else if key = "TRACKNUMBER".toList then { s with m_sTrackNumber := value }
  else if key = "BPM".toList then { s with m_fBPM := qt.toFloat value }
  else s

/-! ## Vocabulary of the properties -/

/-- The first `2 * k` samples `flacWrite` produces from a frame, in the order it
stores them: sample `j` of channel 0, then sample `j` of channel 1 (of channel 0
again for a frame with one channel), each narrowed to 16 bits. -/
def frameSamplesUpTo (frame : Frame) : Nat → List Int
  | 0 => []
  | k + 1 =>
    frameSamplesUpTo frame k ++
      [toInt16 (frame.sample 0 k), toInt16 (frame.sample (if frame.channels > 1 then 1 else 0) k)]

/-- The interleaved samples of a whole frame. -/
def frameSamples (frame : Frame) : List Int :=
  frameSamplesUpTo frame frame.blocksize

/-- The interleaved samples of a sequence of frames. -/
def allSamples : List Frame → List Int
  | [] => []
  | f :: fs => frameSamples f ++ allSamples fs

/-- The number of time-domain samples (per channel) in a sequence of frames. -/
def totalBlocksize : List Frame → Nat
  | [] => 0
  | f :: fs => f.blocksize + totalBlocksize fs

/-- The decoder state after `k` further calls of `process_single`. -/
def decoderAfter (api : LibFLAC D) : Nat → D → D
  | 0, d => d
  | k + 1, d => decoderAfter api k (api.process_single d).1

/-- End of stream: no call of `process_single` from here on hands a frame to the
write callback, whether the call reports success or failure. -/
def AtEndOfStream (api : LibFLAC D) (d : D) : Prop :=
  ∀ k, (api.process_single (decoderAfter api k d)).2.1 = none

/-- The decoder delivers exactly the frames `fs`, completely and in order: each of
the next calls of `process_single` succeeds and hands over the next frame, and
after the last frame the decoder is at the end of the stream. -/
def Delivers (api : LibFLAC D) : D → List Frame → Prop
  | d, [] => AtEndOfStream api d
  | d, f :: fs =>
    (api.process_single d).2 = (some f, true) ∧ Delivers api (api.process_single d).1 fs

/-- The locals of `read` after `n` further samples have been copied out of a
scratch buffer with the given cells. -/
def drained (st : ReadLocals D F) (cells : List Int) (n : Nat) : ReadLocals D F :=
  { self := { st.self with m_flacBufferLength := st.self.m_flacBufferLength - n }
    samplesWritten := st.samplesWritten + n
    i := st.i + n
    destBuffer := st.destBuffer ++ (cells.drop st.i).take n }

/-- Inside the loop of `read`: the session is open, both buffers are allocated, the
undelivered samples `m_flacBuffer[i .. i + m_flacBufferLength)` exist, and these
followed by the samples of the frames still to be decoded are `rest`. -/
def LoopReady (api : LibFLAC D) (st : ReadLocals D F) (rest : List Int) : Prop :=
  ∃ d fb lb fs, st.self.m_decoder = some d ∧ st.self.m_flacBuffer = some fb ∧
    st.self.m_leftoverBuffer = some lb ∧
    st.i + st.self.m_flacBufferLength ≤ fb.cells.length ∧
    Delivers api d fs ∧ (∀ f ∈ fs, 0 < f.blocksize) ∧
    rest = (fb.cells.drop st.i).take st.self.m_flacBufferLength ++ allSamples fs

/-- Between calls of `read`: as `LoopReady`, with the undelivered samples at the
start of the scratch buffer. -/
def Ready (api : LibFLAC D) (s : SoundSourceFLAC D F) (rest : List Int) : Prop :=
  ∃ d fb lb fs, s.m_decoder = some d ∧ s.m_flacBuffer = some fb ∧
    s.m_leftoverBuffer = some lb ∧ s.m_flacBufferLength ≤ fb.cells.length ∧
    Delivers api d fs ∧ (∀ f ∈ fs, 0 < f.blocksize) ∧
    rest = fb.cells.take s.m_flacBufferLength ++ allSamples fs

/-- The adapter holds the undelivered samples `pending` at the start of its scratch
buffer, with an open session and both buffers allocated. -/
def Buffered (s : SoundSourceFLAC D F) (pending : List Int) : Prop :=
  ∃ d fb lb, s.m_decoder = some d ∧ s.m_flacBuffer = some fb ∧
    s.m_leftoverBuffer = some lb ∧ s.m_flacBufferLength = pending.length ∧
    fb.cells.take pending.length = pending

/-- Calls of `read` issued back to back with the given sizes: the result of each
call, and the state after the last. -/
def readMany (api : LibFLAC D) :
    SoundSourceFLAC D F → List Nat → List (Nat × List Int) × SoundSourceFLAC D F
  | s, [] => ([], s)
  | s, n :: ns =>
    ((read api s n).1 :: (readMany api (read api s n).2 ns).1,
      (readMany api (read api s n).2 ns).2)

/-- The counts returned by a sequence of reads. -/
def readCounts (api : LibFLAC D) (s : SoundSourceFLAC D F) (sizes : List Nat) : List Nat :=
  (readMany api s sizes).1.map Prod.fst

/-- The STREAMINFO block that `flacMetadata` sees last among the blocks of a
metadata scan, if there is one. -/
def lastStreamInfo : List StreamMetadata → Option StreamInfo
  | [] => none
  | .STREAMINFO info :: rest => (lastStreamInfo rest).orElse fun _ => some info
  | _ :: rest => lastStreamInfo rest

/-- One more than `UINT_MAX`: a counter of type `unsigned int` (`samplesWritten`,
`i`, `m_flacBufferLength`, the result of `read`) holds the values below it. -/
def UINT_RANGE : Nat := 4294967296

/-- From decoder state `d` on, every frame that a call of `process_single` hands to
the write callback fits an array of `cap` elements: `flacWrite` stores
`2 * blocksize` samples for it. -/
def FramesFitFrom (api : LibFLAC D) (d : D) (cap : Nat) : Prop :=
  ∀ k fr, (api.process_single (decoderAfter api k d)).2.1 = some fr → 2 * fr.blocksize ≤ cap

/-- The adapter is within its arrays: the session is open, both buffers are arrays
of `cap` elements whose modelled cells are exactly these elements (no store has
gone past the end of either), the undelivered samples
`m_flacBuffer[i .. i + m_flacBufferLength)` lie inside the array, and every frame
the decoder hands over from now on fits. -/
def InBounds (api : LibFLAC D) (cap : Nat) (s : SoundSourceFLAC D F) (i : Nat) : Prop :=
  ∃ d fb lb, s.m_decoder = some d ∧ s.m_flacBuffer = some fb ∧
    s.m_leftoverBuffer = some lb ∧ fb.capacity = cap ∧ lb.capacity = cap ∧
    fb.cells.length = cap ∧ lb.cells.length = cap ∧
    i + s.m_flacBufferLength ≤ cap ∧ FramesFitFrom api d cap

/-! ## A scripted decoder for concrete runs -/

/-- A stream for the scripted decoder: what each open-time entry point answers, the
metadata blocks of the stream, and its frames. -/
structure Script where
  allocOk : Bool
  respondOk : Bool
  initOk : Bool
  metadataOk : Bool
  blocks : List StreamMetadata
  frames : List Frame

/-- A frame without its first `t` samples per channel, as libFLAC hands it over
when a seek lands inside the frame. -/
def Frame.dropSamples (f : Frame) (t : Nat) : Frame :=
  { f with blocksize := f.blocksize - t, buffer := f.buffer.map (List.drop t) }

/-- The frame holding time-domain sample `t`, cut to start there, and the frames
after it; `none` when `t` is past the end of the stream. -/
def seekIn : List Frame → Nat → Option (Frame × List Frame)
  | [], _ => none
  | f :: fs, t =>
    if t < f.blocksize then some (f.dropSamples t, fs) else seekIn fs (t - f.blocksize)

/-- A decoder whose state is the list of frames still to decode.  A seek to a
sample inside the stream succeeds and hands over the rest of the frame that holds
the sample; a seek past the end fails and hands over nothing. -/
def scripted (sc : Script) : LibFLAC (List Frame) where
  stream_decoder_new := if sc.allocOk then some sc.frames else none
  set_metadata_respond d := (d, sc.respondOk)
  init_stream d := (d, sc.initOk)
  process_until_end_of_metadata d := (d, sc.blocks, sc.metadataOk)
  process_single d :=
    match d with
    | [] => ([], none, true)
    | f :: fs => (fs, some f, true)
  seek_absolute d t :=
    match seekIn sc.frames t with
    | some (f, fs) => (fs, some f, true)
    | none => (d, none, false)

/-- A freshly constructed adapter. -/
def fresh : SoundSourceFLAC (List Frame) Unit :=
  new
    { m_decoder := none, m_samples := 0, m_bps := 0, m_minBlocksize := 0, m_maxBlocksize := 0,
      m_minFramesize := 0, m_maxFramesize := 0, m_flacBuffer := none, m_flacBufferLength := 0,
      m_leftoverBuffer := none, m_leftoverBufferLength := 0, m_tags := [], m_iChannels := 0,
      m_iSampleRate := 0, m_sArtist := [], m_sTitle := [], m_sAlbum := [], m_sComment := [],
      m_sYear := [], m_sGenre := [], m_sTrackNumber := [], m_fBPM := (), calls := [] }

/-- A frame whose sample `i` of channel `c` is `base + 100 * c + i`. -/
def tone (channels blocksize : Nat) (base : Int) : Frame :=
  { channels := channels
    blocksize := blocksize
    buffer := (List.range channels).map fun c =>
      (List.range blocksize).map fun i => base + 100 * (c : Int) + (i : Int) }

/-- A well-formed stream of two frames of 16 samples per channel, with the given
channel count and bit depth and one comment entry. -/
def stream (channels bps : Nat) : Script :=
  { allocOk := true
    respondOk := true
    initOk := true
    metadataOk := true
    blocks :=
      [.STREAMINFO ⟨32, channels, 44100, bps, 16, 16, 0, 0⟩,
        .VORBIS_COMMENT ["ARTIST=Test Artist".toList]]
    frames := [tone channels 16 0, tone channels 16 1000] }

/-- The adapter after `open` on the stream with the given channel count, 16 bits. -/
def opened (channels : Nat) : SoundSourceFLAC (List Frame) Unit :=
  (flacOpen (scripted (stream channels 16)) fresh).2

/-- An ASCII-only `toUpper` and a `toFloat` into the one-point type. -/
def asciiText : QtText Unit where
  toUpper s := s.map Char.toUpper
  toFloat _ := ()

/-! ## Lemmas about the callbacks and the read loop -/

theorem toInt16_of_inInt16 {v : Int} (h : InInt16 v) : toInt16 v = v := by
  unfold InInt16 at h
  unfold toInt16
  omega

theorem frameSamplesUpTo_length (frame : Frame) (k : Nat) :
    (frameSamplesUpTo frame k).length = 2 * k := by
  induction k with
  | zero => rfl
  | succ k ih => simp [frameSamplesUpTo, ih]; omega

theorem push_eq (s : SoundSourceFLAC D F) (pre rest : List Int) (cap : Nat) (v : Int)
    (hb : s.m_flacBuffer = some ⟨cap, pre ++ rest⟩) (hl : s.m_flacBufferLength = pre.length) :
    push s v = { s with m_flacBuffer := some ⟨cap, (pre ++ [toInt16 v]) ++ rest.drop 1⟩,
                        m_flacBufferLength := (pre ++ [toInt16 v]).length } := by
  unfold push
  rw [hb, hl]
  cases rest with
  | nil => simp [Buffer.store]
  | cons x xs => simp [Buffer.store]

theorem push_push_eq (s : SoundSourceFLAC D F) (pre rest : List Int) (cap : Nat) (a b : Int)
    (hb : s.m_flacBuffer = some ⟨cap, pre ++ rest⟩) (hl : s.m_flacBufferLength = pre.length) :
    push (push s a) b =
      { s with m_flacBuffer := some ⟨cap, pre ++ [toInt16 a, toInt16 b] ++ rest.drop 2⟩,
               m_flacBufferLength := pre.length + 2 } := by
  have e1 := push_eq s pre rest cap a hb hl
  have e2 := push_eq (push s a) (pre ++ [toInt16 a]) (rest.drop 1) cap b
    (by rw [e1]) (by rw [e1])
  rw [e2, e1]
  simp [List.drop_drop]

theorem flacWrite_fold (s : SoundSourceFLAC D F) (frame : Frame) (cap : Nat) (cells : List Int)
    (hb : s.m_flacBuffer = some ⟨cap, cells⟩) (c : Nat)
    (hc : c = if frame.channels > 1 then 1 else 0) (k : Nat) :
    (List.range k).foldl (fun st i => push (push st (frame.sample 0 i)) (frame.sample c i))
        { s with m_flacBufferLength := 0 } =
      { s with m_flacBuffer := some ⟨cap, frameSamplesUpTo frame k ++ cells.drop (2 * k)⟩,
               m_flacBufferLength := 2 * k } := by
  induction k with
  | zero => simp [frameSamplesUpTo, hb]
  | succ k ih =>
    rw [List.range_succ, List.foldl_append, ih]
    simp only [List.foldl_cons, List.foldl_nil]
    rw [push_push_eq _ (frameSamplesUpTo frame k) (cells.drop (2 * k)) cap _ _ rfl
      (by simp [frameSamplesUpTo_length])]
    have h1 : 2 * k + 2 = 2 * (k + 1) := by omega
    simp [frameSamplesUpTo, ← hc, frameSamplesUpTo_length, h1]

theorem flacWrite_eq (s : SoundSourceFLAC D F) (frame : Frame) (cap : Nat) (cells : List Int)
    (hb : s.m_flacBuffer = some ⟨cap, cells⟩) :
    flacWrite s frame =
      ({ s with m_flacBuffer := some ⟨cap, frameSamples frame ++ cells.drop (2 * frame.blocksize)⟩,
                m_flacBufferLength := 2 * frame.blocksize }, WriteStatus.CONTINUE) := by
  unfold flacWrite frameSamples
  by_cases h : frame.channels > 1
  · simp only [h, if_true]
    rw [flacWrite_fold s frame cap cells hb 1 (by simp [h])]
  · simp only [h, if_false]
    rw [flacWrite_fold s frame cap cells hb 0 (by simp [h])]

theorem copySample_eq_drained (st : ReadLocals D F) (fb : Buffer)
    (hb : st.self.m_flacBuffer = some fb) (hi : st.i < fb.cells.length) :
    copySample st = drained st fb.cells 1 := by
  unfold copySample drained
  have h1 : (fb.cells.drop st.i).take 1 = [fb.cells.getD st.i 0] := by
    rw [List.getD_eq_getElem _ _ hi]
    have h := List.drop_eq_getElem_cons hi
    rw [h]
    rfl
  simp [hb, Buffer.load, h1]

theorem drained_drained (st : ReadLocals D F) (cells : List Int) (a b : Nat) :
    drained (drained st cells a) cells b = drained st cells (a + b) := by
  unfold drained
  have h1 : (cells.drop st.i).take (a + b) =
      (cells.drop st.i).take a ++ (cells.drop (st.i + a)).take b := by
    rw [List.take_add, List.drop_drop]
  simp [h1, Nat.sub_sub, Nat.add_assoc]

theorem readLoop_drain (api : LibFLAC D) (n m : Nat) :
    ∀ (st : ReadLocals D F) (fb : Buffer), st.self.m_flacBuffer = some fb →
      n ≤ st.self.m_flacBufferLength → st.i + st.self.m_flacBufferLength ≤ fb.cells.length →
      readLoop api (n + m) st = readLoop api m (drained st fb.cells n) := by
  induction n with
  | zero =>
    intro st fb _ _ _
    have : drained st fb.cells 0 = st := by simp [drained]
    simp [this]
  | succ n ih =>
    intro st fb hb hn hi
    have hne : st.self.m_flacBufferLength ≠ 0 := by omega
    have e : n + 1 + m = (n + m) + 1 := by omega
    rw [e, readLoop]
    simp only [hne, if_false]
    rw [copySample_eq_drained st fb hb (by omega)]
    rw [ih (drained st fb.cells 1) fb (by simpa [drained] using hb)
      (by simp [drained]; omega) (by simp [drained]; omega)]
    rw [drained_drained, Nat.add_comm 1 n]

theorem frameSamples_length (frame : Frame) : (frameSamples frame).length = 2 * frame.blocksize :=
  frameSamplesUpTo_length frame frame.blocksize

theorem atEndOfStream_next (api : LibFLAC D) (d : D) (h : AtEndOfStream api d) :
    AtEndOfStream api (api.process_single d).1 := fun k => h (k + 1)

theorem loopReady_copySample (api : LibFLAC D) (st : ReadLocals D F) (rest : List Int)
    (h : LoopReady api st rest) (hne : st.self.m_flacBufferLength ≠ 0) :
    ∃ x rest', rest = x :: rest' ∧ (copySample st).samplesWritten = st.samplesWritten + 1 ∧
      (copySample st).destBuffer = st.destBuffer ++ [x] ∧ LoopReady api (copySample st) rest' := by
  obtain ⟨d, fb, lb, fs, hd, hb, hl, hi, hdel, hpos, hrest⟩ := h
  have hlt : st.i < fb.cells.length := by omega
  rw [copySample_eq_drained st fb hb hlt]
  have hdrop := List.drop_eq_getElem_cons hlt
  obtain ⟨m, hm⟩ : ∃ m, st.self.m_flacBufferLength = m + 1 := ⟨st.self.m_flacBufferLength - 1, by omega⟩
  refine ⟨fb.cells[st.i], (fb.cells.drop (st.i + 1)).take m ++ allSamples fs, ?_, ?_, ?_, ?_⟩
  · rw [hrest, hdrop, hm]; rfl
  · rfl
  · simp only [drained]; rw [hdrop]; rfl
  · refine ⟨d, fb, lb, fs, hd, hb, hl, ?_, hdel, hpos, ?_⟩
    · simp only [drained]; omega
    · simp only [drained, hm]; simp

theorem loopReady_refill (api : LibFLAC D) (st : ReadLocals D F) (rest : List Int)
    (h : LoopReady api st rest) (h0 : st.self.m_flacBufferLength = 0) :
    (rest = [] ∧ (process_single api st.self).1.m_flacBufferLength = 0 ∧
        LoopReady api { st with self := (process_single api st.self).1, i := 0 } []) ∨
      ((process_single api st.self).2 = true ∧
        (process_single api st.self).1.m_flacBufferLength ≠ 0 ∧
        LoopReady api { st with self := (process_single api st.self).1, i := 0 } rest) := by
  obtain ⟨d, fb, lb, fs, hd, hb, hl, hi, hdel, hpos, hrest⟩ := h
  cases fs with
  | nil =>
    left
    have hnone : (api.process_single d).2.1 = none := hdel 0
    have hps : (process_single api st.self).1 =
        { st.self with m_decoder := some (api.process_single d).1,
                       calls := st.self.calls ++ [Call.process_single] } := by
      simp [process_single, hd, hnone, deliver]
    refine ⟨?_, ?_, ?_⟩
    · rw [hrest, h0]; simp [allSamples]
    · rw [hps]; exact h0
    · refine ⟨(api.process_single d).1, fb, lb, [], ?_, ?_, ?_, ?_, ?_, ?_, ?_⟩
      · rw [hps]
      · rw [hps]; exact hb
      · rw [hps]; exact hl
      · rw [hps]; simp only [h0]; omega
      · exact atEndOfStream_next api d hdel
      · intro f hf; cases hf
      · rw [hps]; simp [h0, allSamples]
  | cons f fs =>
    right
    obtain ⟨hstep, hdel'⟩ := hdel
    have hf : (api.process_single d).2.1 = some f := by rw [hstep]
    have hok : (api.process_single d).2.2 = true := by rw [hstep]
    have hfpos : 0 < f.blocksize := hpos f (List.mem_cons_self _ _)
    have hps : (process_single api st.self).1 =
        { st.self with m_decoder := some (api.process_single d).1,
                       calls := st.self.calls ++ [Call.process_single],
                       m_flacBuffer := some ⟨fb.capacity, frameSamples f ++ fb.cells.drop (2 * f.blocksize)⟩,
                       m_flacBufferLength := 2 * f.blocksize } := by
      simp only [process_single, hd, hf, deliver]
      rw [flacWrite_eq _ f fb.capacity fb.cells (by simpa using hb)]
    refine ⟨?_, ?_, ?_⟩
    · simp [process_single, hd, hok]
    · rw [hps]; simp only; omega
    · refine ⟨(api.process_single d).1,
        ⟨fb.capacity, frameSamples f ++ fb.cells.drop (2 * f.blocksize)⟩, lb, fs,
        ?_, ?_, ?_, ?_, hdel', ?_, ?_⟩
      · rw [hps]
      · rw [hps]
      · rw [hps]; exact hl
      · rw [hps]; simp [frameSamples_length]
      · intro g hg; exact hpos g (List.mem_cons_of_mem _ hg)
      · rw [hps, hrest, h0]
        simp [allSamples, frameSamples_length, List.take_append_eq_append_take]

theorem readLoop_ready (api : LibFLAC D) (n : Nat) :
    ∀ (st : ReadLocals D F) (rest : List Int), LoopReady api st rest →
      (readLoop api n st).samplesWritten = st.samplesWritten + min n rest.length ∧
      (readLoop api n st).destBuffer = st.destBuffer ++ rest.take n ∧
      LoopReady api (readLoop api n st) (rest.drop n) := by
  induction n with
  | zero => intro st rest h; simpa [readLoop] using h
  | succ n ih =>
    intro st rest h
    have key : ∀ st2 : ReadLocals D F, st2.self.m_flacBufferLength ≠ 0 → LoopReady api st2 rest →
        (readLoop api n (copySample st2)).samplesWritten = st2.samplesWritten + min (n + 1) rest.length ∧
        (readLoop api n (copySample st2)).destBuffer = st2.destBuffer ++ rest.take (n + 1) ∧
        LoopReady api (readLoop api n (copySample st2)) (rest.drop (n + 1)) := by
      intro st2 hne h2
      obtain ⟨x, rest', hr, hsw, hdest, hready⟩ := loopReady_copySample api st2 rest h2 hne
      obtain ⟨i1, i2, i3⟩ := ih (copySample st2) rest' hready
      subst hr
      refine ⟨?_, ?_, ?_⟩
      · rw [i1, hsw]; simp [Nat.succ_min_succ]; omega
      · rw [i2, hdest]; simp
      · simpa using i3
    by_cases h0 : st.self.m_flacBufferLength = 0
    · rw [readLoop]
      simp only [h0, if_true]
      rcases loopReady_refill api st rest h h0 with ⟨hr, hl0, hready⟩ | ⟨hok, hne, hready⟩
      · subst hr
        simp only [hl0, if_true, ite_self]
        exact ⟨by simp, by simp, by simpa using hready⟩
      · simp only [hok, hne, if_false, Bool.not_true]
        exact key _ hne hready
    · rw [readLoop]
      simp only [h0, if_false]
      exact key st h0 h

theorem map_load_eq_take_drop (b : Buffer) (start n : Nat) (h : start + n ≤ b.cells.length) :
    (List.range n).map (fun j => b.load (start + j)) = (b.cells.drop start).take n := by
  induction n with
  | zero => simp
  | succ n ih =>
    have hlt : start + n < b.cells.length := by omega
    have hlt2 : n < (b.cells.drop start).length := by simp; omega
    rw [List.range_succ, List.map_append, ih (by omega), List.take_succ,
      List.getElem?_eq_getElem hlt2]
    simp only [List.map_cons, List.map_nil, Buffer.load, Option.toList]
    rw [List.getD_eq_getElem _ _ hlt, List.getElem_drop]

theorem compact_cells (fb lb : Buffer) (i len : Nat) (h : i + len ≤ fb.cells.length) :
    ((fb.memcpy (lb.memcpy fb i len) 0 len).cells).take len = (fb.cells.drop i).take len ∧
      len ≤ (fb.memcpy (lb.memcpy fb i len) 0 len).cells.length := by
  have hlen : ((fb.cells.drop i).take len).length = len := by
    simp; omega
  have h0 : (lb.memcpy fb i len).cells = (fb.cells.drop i).take len ++ lb.cells.drop len := by
    simp only [Buffer.memcpy]
    rw [map_load_eq_take_drop fb i len h]
  have h1 : ((lb.memcpy fb i len).cells.drop 0).take len = (fb.cells.drop i).take len := by
    rw [h0, List.drop_zero, List.take_append_of_le_length (by omega), List.take_take]
    simp
  have h2 : 0 + len ≤ (lb.memcpy fb i len).cells.length := by
    rw [h0, List.length_append, hlen]; omega
  have h3 : (fb.memcpy (lb.memcpy fb i len) 0 len).cells =
      (fb.cells.drop i).take len ++ fb.cells.drop len := by
    simp only [Buffer.memcpy]
    have := map_load_eq_take_drop (lb.memcpy fb i len) 0 len h2
    simp only [Buffer.memcpy] at this
    rw [this]
    have h1b := h1
    simp only [Buffer.memcpy] at h1b
    rw [h1b]
  constructor
  · rw [h3, List.take_append_of_le_length (by omega), List.take_take]; simp
  · rw [h3, List.length_append, hlen]; omega

theorem ready_compact (api : LibFLAC D) (st : ReadLocals D F) (rest : List Int)
    (h : LoopReady api st rest) : Ready api (compact st.self st.i) rest := by
  obtain ⟨d, fb, lb, fs, hd, hb, hl, hi, hdel, hpos, hrest⟩ := h
  by_cases h0 : st.self.m_flacBufferLength = 0
  · refine ⟨d, fb, lb, fs, ?_, ?_, ?_, ?_, hdel, hpos, ?_⟩ <;> simp [compact, h0, hd, hb, hl]
    simpa [h0] using hrest
  · obtain ⟨c1, c2⟩ := compact_cells fb lb st.i st.self.m_flacBufferLength hi
    refine ⟨d, fb.memcpy (lb.memcpy fb st.i st.self.m_flacBufferLength) 0 st.self.m_flacBufferLength,
      lb.memcpy fb st.i st.self.m_flacBufferLength, fs, ?_, ?_, ?_, ?_, hdel, hpos, ?_⟩
    · simp [compact, h0, hd, hb, hl]
    · simp [compact, h0, hd, hb, hl]
    · simp [compact, h0, hd, hb, hl]
    · simpa [compact, h0, hd, hb, hl] using c2
    · have : (compact st.self st.i).m_flacBufferLength = st.self.m_flacBufferLength := by
        simp [compact, h0, hb, hl]
      rw [this, c1]; exact hrest

theorem read_ready (api : LibFLAC D) (s : SoundSourceFLAC D F) (rest : List Int)
    (h : Ready api s rest) (n : Nat) :
    (read api s n).1 = (min n rest.length, rest.take n) ∧
      Ready api (read api s n).2 (rest.drop n) := by
  obtain ⟨d, fb, lb, fs, hd, hb, hl, hi, hdel, hpos, hrest⟩ := h
  have hloop : LoopReady api
      ({ self := s, samplesWritten := 0, i := 0, destBuffer := [] } : ReadLocals D F) rest :=
    ⟨d, fb, lb, fs, hd, hb, hl, by simpa using hi, hdel, hpos, by simpa using hrest⟩
  obtain ⟨r1, r2, r3⟩ := readLoop_ready api n _ rest hloop
  simp only [read, hd]
  refine ⟨?_, ready_compact api _ _ r3⟩
  rw [r1, r2]; simp

theorem compact_calls (s : SoundSourceFLAC D F) (i : Nat) : (compact s i).calls = s.calls := by
  unfold compact
  split
  · split <;> rfl
  · rfl

theorem compact_decoder (s : SoundSourceFLAC D F) (i : Nat) :
    (compact s i).m_decoder = s.m_decoder := by
  unfold compact
  split
  · split <;> rfl
  · rfl

theorem readLoop_destBuffer_extends (api : LibFLAC D) (n : Nat) :
    ∀ st : ReadLocals D F, ∃ extra, (readLoop api n st).destBuffer = st.destBuffer ++ extra := by
  induction n with
  | zero => intro st; exact ⟨[], by simp [readLoop]⟩
  | succ n ih =>
    intro st
    have step : ∀ st2 : ReadLocals D F, st2.destBuffer = st.destBuffer →
        ∃ extra, (readLoop api n (copySample st2)).destBuffer = st.destBuffer ++ extra := by
      intro st2 h2
      obtain ⟨e, he⟩ := ih (copySample st2)
      refine ⟨[(st2.self.m_flacBuffer.map fun b => b.load st2.i).getD 0] ++ e, ?_⟩
      rw [he]
      simp [copySample, h2]
    rw [readLoop]
    by_cases h0 : st.self.m_flacBufferLength = 0
    · simp only [h0, if_true]
      by_cases h1 : (process_single api st.self).2 = true
      · by_cases h2 : (process_single api st.self).1.m_flacBufferLength = 0
        · exact ⟨[], by simp [h1, h2]⟩
        · simp only [h1, h2, if_false, Bool.not_true]
          exact step _ rfl
      · exact ⟨[], by simp [h1]⟩
    · simp only [h0, if_false]
      exact step st rfl

theorem read_of_buffered_le (api : LibFLAC D) (s : SoundSourceFLAC D F) (pending : List Int)
    (h : Buffered s pending) (n : Nat) (hn : n ≤ pending.length) :
    (read api s n).1 = (n, pending.take n) ∧ (read api s n).2.calls = s.calls ∧
      (read api s n).2.m_decoder = s.m_decoder := by
  obtain ⟨d, fb, lb, hd, hb, hl, hlen, hcells⟩ := h
  have hle : pending.length ≤ fb.cells.length := by
    have := congrArg List.length hcells
    simp at this; omega
  have hloop := readLoop_drain api n 0
    ({ self := s, samplesWritten := 0, i := 0, destBuffer := [] } : ReadLocals D F) fb hb
    (by simpa [hlen] using hn) (by simpa [hlen] using hle)
  simp only [Nat.add_zero] at hloop
  simp only [read, hd, hloop, readLoop, compact_calls, compact_decoder]
  refine ⟨?_, rfl, ?_⟩
  · simp only [drained, Nat.zero_add, List.nil_append, List.drop_zero]
    rw [← hcells, List.take_take, Nat.min_eq_left hn]
  · simp [drained, hd]

theorem read_of_buffered_ge (api : LibFLAC D) (s : SoundSourceFLAC D F) (pending : List Int)
    (h : Buffered s pending) (n : Nat) (hn : pending.length ≤ n) :
    (read api s n).1.2.take pending.length = pending := by
  obtain ⟨d, fb, lb, hd, hb, hl, hlen, hcells⟩ := h
  have hle : pending.length ≤ fb.cells.length := by
    have := congrArg List.length hcells
    simp at this; omega
  have hloop := readLoop_drain api pending.length (n - pending.length)
    ({ self := s, samplesWritten := 0, i := 0, destBuffer := [] } : ReadLocals D F) fb hb
    (by simp [hlen]) (by simpa [hlen] using hle)
  rw [Nat.add_sub_cancel' hn] at hloop
  obtain ⟨extra, he⟩ := readLoop_destBuffer_extends api (n - pending.length)
    (drained ({ self := s, samplesWritten := 0, i := 0, destBuffer := [] } : ReadLocals D F)
      fb.cells pending.length)
  simp only [read, hd, hloop, he]
  simp only [drained, List.nil_append, List.drop_zero, hcells]
  simp

theorem read_first_frame (api : LibFLAC D) (s : SoundSourceFLAC D F) (d d1 : D) (fb lb : Buffer)
    (f : Frame) (m : Nat) (hd : s.m_decoder = some d) (hb : s.m_flacBuffer = some fb)
    (hl : s.m_leftoverBuffer = some lb) (h0 : s.m_flacBufferLength = 0)
    (hstep : api.process_single d = (d1, some f, true)) (hm : 0 < m)
    (hmk : m < 2 * f.blocksize) :
    (read api s m).1 = (m, (frameSamples f).take m) ∧
      Buffered (read api s m).2 ((frameSamples f).drop m) := by
  have hps : process_single api s =
      ({ s with m_decoder := some d1, calls := s.calls ++ [Call.process_single],
                m_flacBuffer := some ⟨fb.capacity, frameSamples f ++ fb.cells.drop (2 * f.blocksize)⟩,
                m_flacBufferLength := 2 * f.blocksize }, true) := by
    simp only [process_single, hd, hstep, deliver]
    rw [flacWrite_eq _ f fb.capacity fb.cells (by simpa using hb)]
  obtain ⟨k, rfl⟩ : ∃ k, m = k + 1 := ⟨m - 1, by omega⟩
  have hne : 2 * f.blocksize ≠ 0 := by omega
  have hrefill : readLoop api (k + 1)
      ({ self := s, samplesWritten := 0, i := 0, destBuffer := [] } : ReadLocals D F) =
      readLoop api (k + 1) { self := (process_single api s).1, samplesWritten := 0, i := 0,
                             destBuffer := [] } := by
    rw [readLoop, readLoop]
    simp [h0, hps, hne]
  have hdrain := readLoop_drain api (k + 1) 0
    ({ self := (process_single api s).1, samplesWritten := 0, i := 0, destBuffer := [] } :
      ReadLocals D F)
    ⟨fb.capacity, frameSamples f ++ fb.cells.drop (2 * f.blocksize)⟩ (by rw [hps])
    (by rw [hps]; simp only; omega) (by rw [hps]; simp [frameSamples_length])
  simp only [Nat.add_zero] at hdrain
  have hlenfs := frameSamples_length f
  have hcc := compact_cells ⟨fb.capacity, frameSamples f ++ fb.cells.drop (2 * f.blocksize)⟩ lb
    (k + 1) (2 * f.blocksize - (k + 1)) (by simp [frameSamples_length]; omega)
  have hdropeq : ((frameSamples f ++ fb.cells.drop (2 * f.blocksize)).drop (k + 1)).take
      (2 * f.blocksize - (k + 1)) = (frameSamples f).drop (k + 1) := by
    rw [List.drop_append_of_le_length (by omega), List.take_append_of_le_length (by simp; omega)]
    rw [List.take_of_length_le (by simp; omega)]
  simp only [read, hd]
  rw [hrefill, hdrain]
  simp only [readLoop]
  constructor
  · simp only [drained, hps, Nat.zero_add, List.nil_append, List.drop_zero]
    rw [List.take_append_of_le_length (by omega)]
  · have hne2 : 2 * f.blocksize - (k + 1) ≠ 0 := by omega
    have hl2 : ((frameSamples f).drop (k + 1)).length = 2 * f.blocksize - (k + 1) := by
      simp [hlenfs]
    refine ⟨d1,
      Buffer.memcpy ⟨fb.capacity, frameSamples f ++ fb.cells.drop (2 * f.blocksize)⟩
        (lb.memcpy ⟨fb.capacity, frameSamples f ++ fb.cells.drop (2 * f.blocksize)⟩ (k + 1)
          (2 * f.blocksize - (k + 1))) 0 (2 * f.blocksize - (k + 1)),
      lb.memcpy ⟨fb.capacity, frameSamples f ++ fb.cells.drop (2 * f.blocksize)⟩ (k + 1)
        (2 * f.blocksize - (k + 1)), ?_, ?_, ?_, ?_, ?_⟩
    · simp [compact, drained, hps, hne2, hl]
    · simp [compact, drained, hps, hne2, hl]
    · simp [compact, drained, hps, hne2, hl]
    · simp [compact, drained, hps, hne2, hl, hlenfs]
    · rw [hl2, hcc.1]
      exact hdropeq

theorem allSamples_length (fs : List Frame) :
    (allSamples fs).length = 2 * totalBlocksize fs := by
  induction fs with
  | nil => rfl
  | cons f fs ih => simp [allSamples, totalBlocksize, frameSamples_length, ih]; omega

theorem readCounts_cons (api : LibFLAC D) (s : SoundSourceFLAC D F) (n : Nat) (ns : List Nat) :
    readCounts api s (n :: ns) = (read api s n).1.1 :: readCounts api (read api s n).2 ns := by
  simp [readCounts, readMany]

theorem readMany_ready (api : LibFLAC D) (sizes : List Nat) :
    ∀ (s : SoundSourceFLAC D F) (rest : List Int), Ready api s rest →
      (readCounts api s sizes).sum = min sizes.sum rest.length ∧
      Ready api (readMany api s sizes).2 (rest.drop sizes.sum) := by
  induction sizes with
  | nil => intro s rest h; simpa [readCounts, readMany] using h
  | cons n ns ih =>
    intro s rest h
    obtain ⟨r1, r2⟩ := read_ready api s rest h n
    obtain ⟨i1, i2⟩ := ih (read api s n).2 (rest.drop n) r2
    constructor
    · rw [readCounts_cons, List.sum_cons, i1, r1]
      simp only [List.sum_cons, List.length_drop]
      omega
    · simpa [readMany, List.drop_drop] using i2

theorem readCounts_zero (api : LibFLAC D) (sizes : List Nat) :
    ∀ (s : SoundSourceFLAC D F) (rest : List Int), Ready api s rest → (∀ n ∈ sizes, 0 < n) →
      ∀ k, (readCounts api s sizes)[k]? = some 0 →
        ((readCounts api s sizes).take k).sum = rest.length := by
  induction sizes with
  | nil => intro s rest _ _ k hk; simp [readCounts, readMany] at hk
  | cons n ns ih =>
    intro s rest h hpos k hk
    obtain ⟨r1, r2⟩ := read_ready api s rest h n
    have hn : 0 < n := hpos n (List.mem_cons_self _ _)
    rw [readCounts_cons] at hk ⊢
    cases k with
    | zero =>
      simp only [List.getElem?_cons_zero, Option.some.injEq, r1] at hk
      simp only [List.take_zero, List.sum_nil]
      omega
    | succ k =>
      simp only [List.getElem?_cons_succ] at hk
      have := ih (read api s n).2 (rest.drop n) r2
        (fun x hx => hpos x (List.mem_cons_of_mem _ hx)) k hk
      simp only [List.take_succ_cons, List.sum_cons, this, r1, List.length_drop]
      omega

theorem readCounts_le (api : LibFLAC D) (sizes : List Nat) :
    ∀ (s : SoundSourceFLAC D F) (rest : List Int), Ready api s rest →
      List.Forall₂ (fun c n => c ≤ n) (readCounts api s sizes) sizes := by
  induction sizes with
  | nil => intro s rest _; simp [readCounts, readMany]
  | cons n ns ih =>
    intro s rest h
    obtain ⟨r1, r2⟩ := read_ready api s rest h n
    rw [readCounts_cons]
    refine List.Forall₂.cons ?_ (ih _ _ r2)
    rw [r1]; exact Nat.min_le_left _ _

theorem readCounts_all_zero (api : LibFLAC D) (sizes : List Nat) :
    ∀ (s : SoundSourceFLAC D F), Ready api s [] → ∀ c ∈ readCounts api s sizes, c = 0 := by
  induction sizes with
  | nil => intro s _ c hc; simp [readCounts, readMany] at hc
  | cons n ns ih =>
    intro s h c hc
    obtain ⟨r1, r2⟩ := read_ready api s [] h n
    rw [readCounts_cons] at hc
    rcases List.mem_cons.mp hc with hc | hc
    · rw [hc, r1]; simp
    · exact ih _ (by simpa using r2) c hc

theorem scripted_atEnd (sc : Script) : AtEndOfStream (scripted sc) [] := by
  have h : ∀ k, decoderAfter (scripted sc) k [] = [] := by
    intro k
    induction k with
    | zero => rfl
    | succ k ih => simpa [decoderAfter, scripted] using ih
  intro k
  rw [h k]
  rfl

theorem scripted_delivers (sc : Script) (fs : List Frame) : Delivers (scripted sc) fs fs := by
  induction fs with
  | nil => exact scripted_atEnd sc
  | cons f fs ih => exact ⟨rfl, ih⟩

theorem frameSamplesUpTo_getElem? (frame : Frame) (k i : Nat) (hi : i < k) :
    (frameSamplesUpTo frame k)[2 * i]? = some (toInt16 (frame.sample 0 i)) ∧
      (frameSamplesUpTo frame k)[2 * i + 1]? =
        some (toInt16 (frame.sample (if frame.channels > 1 then 1 else 0) i)) := by
  induction k with
  | zero => omega
  | succ k ih =>
    have hlen := frameSamplesUpTo_length frame k
    by_cases hik : i < k
    · obtain ⟨h1, h2⟩ := ih hik
      simp only [frameSamplesUpTo]
      rw [List.getElem?_append_left (by omega), List.getElem?_append_left (by omega)]
      exact ⟨h1, h2⟩
    · have hik2 : i = k := by omega
      subst hik2
      simp only [frameSamplesUpTo]
      rw [List.getElem?_append_right (by omega), List.getElem?_append_right (by omega)]
      have e1 : 2 * i - (frameSamplesUpTo frame i).length = 0 := by omega
      have e2 : 2 * i + 1 - (frameSamplesUpTo frame i).length = 1 := by omega
      rw [e1, e2]
      exact ⟨rfl, rfl⟩

theorem load_frameSamples (frame : Frame) (cap : Nat) (tail : List Int) (i : Nat)
    (hi : i < frame.blocksize) :
    Buffer.load ⟨cap, frameSamples frame ++ tail⟩ (2 * i) = toInt16 (frame.sample 0 i) ∧
      Buffer.load ⟨cap, frameSamples frame ++ tail⟩ (2 * i + 1) =
        toInt16 (frame.sample (if frame.channels > 1 then 1 else 0) i) := by
  obtain ⟨h1, h2⟩ := frameSamplesUpTo_getElem? frame frame.blocksize i hi
  have hlen := frameSamples_length frame
  simp only [Buffer.load, List.getD_eq_getElem?_getD]
  rw [List.getElem?_append_left (by omega), List.getElem?_append_left (by omega)]
  unfold frameSamples
  rw [h1, h2]
  exact ⟨rfl, rfl⟩

theorem foldl_flacMetadata_frame (blocks : List StreamMetadata) :
    ∀ s : SoundSourceFLAC D F,
      (blocks.foldl flacMetadata s).m_decoder = s.m_decoder ∧
      (blocks.foldl flacMetadata s).m_flacBuffer = s.m_flacBuffer ∧
      (blocks.foldl flacMetadata s).m_leftoverBuffer = s.m_leftoverBuffer ∧
      (blocks.foldl flacMetadata s).calls = s.calls ∧
      (blocks.foldl flacMetadata s).m_bps =
        ((lastStreamInfo blocks).map StreamInfo.bits_per_sample).getD s.m_bps := by
  induction blocks with
  | nil => intro s; simp [lastStreamInfo]
  | cons b bs ih =>
    intro s
    obtain ⟨i1, i2, i3, i4, i5⟩ := ih (flacMetadata s b)
    simp only [List.foldl_cons]
    rw [i1, i2, i3, i4, i5]
    cases b with
    | STREAMINFO info =>
      refine ⟨rfl, rfl, rfl, rfl, ?_⟩
      simp only [lastStreamInfo, flacMetadata]
      cases lastStreamInfo bs <;> rfl
    | VORBIS_COMMENT comments => exact ⟨rfl, rfl, rfl, rfl, rfl⟩
    | OTHER => exact ⟨rfl, rfl, rfl, rfl, rfl⟩

theorem QString_indexOf_append (k v : QString) (c : Char) (hk : c ∉ k) :
    QString_indexOf (k ++ c :: v) c = k.length := by
  induction k with
  | nil => simp [QString_indexOf]
  | cons x xs ih =>
    have hx : x ≠ c := fun h => hk (by simp [h])
    have hxs : c ∉ xs := fun h => hk (List.mem_cons_of_mem _ h)
    have hlt : ¬ ((xs.length : Int) < 0) := by omega
    have e := ih hxs
    show QString_indexOf (x :: (xs ++ c :: v)) c = _
    rw [QString_indexOf]
    simp only [hx, if_false]
    rw [e]
    simp only [hlt, if_false, List.length_cons]
    push_cast
    rfl

theorem setTag_split (k v : QString) (hk : '=' ∉ k) :
    QString_left (k ++ '=' :: v) (QString_indexOf (k ++ '=' :: v) '=') = k ∧
      QString_right (k ++ '=' :: v)
        (((k ++ '=' :: v).length : Int) - QString_indexOf (k ++ '=' :: v) '=' - 1) = v := by
  rw [QString_indexOf_append k v '=' hk]
  constructor
  · have h1 : ¬ (((k.length : Int) < 0) ∨ (((k ++ '=' :: v).length : Int) ≤ (k.length : Int))) := by
      simp only [List.length_append, List.length_cons]; push_cast; omega
    simp only [QString_left, h1, if_false, Int.toNat_ofNat]
    simp
  · have e : (((k ++ '=' :: v).length : Int) - (k.length : Int) - 1) = (v.length : Int) := by
      simp only [List.length_append, List.length_cons]; push_cast; omega
    rw [e]
    have h1 : ¬ (((v.length : Int) < 0) ∨ (((k ++ '=' :: v).length : Int) ≤ (v.length : Int))) := by
      simp only [List.length_append, List.length_cons]; push_cast; omega
    simp only [QString_right, h1, if_false, Int.toNat_ofNat]
    have e2 : (k ++ '=' :: v).length - v.length = k.length + 1 := by
      simp only [List.length_append, List.length_cons]; omega
    rw [e2]
    simp

theorem foldl_push_frame (a b : Nat → Int) (l : List Nat) :
    ∀ s : SoundSourceFLAC D F,
      (l.foldl (fun st i => push (push st (a i)) (b i)) s).calls = s.calls ∧
      (l.foldl (fun st i => push (push st (a i)) (b i)) s).m_decoder = s.m_decoder ∧
      (l.foldl (fun st i => push (push st (a i)) (b i)) s).m_leftoverBufferLength =
        s.m_leftoverBufferLength := by
  induction l with
  | nil => intro s; exact ⟨rfl, rfl, rfl⟩
  | cons x xs ih =>
    intro s
    obtain ⟨i1, i2, i3⟩ := ih (push (push s (a x)) (b x))
    simp only [List.foldl_cons]
    rw [i1, i2, i3]
    exact ⟨rfl, rfl, rfl⟩

theorem deliver_frame (s : SoundSourceFLAC D F) (frame : Option Frame) :
    (deliver s frame).calls = s.calls ∧ (deliver s frame).m_decoder = s.m_decoder := by
  cases frame with
  | none => exact ⟨rfl, rfl⟩
  | some f =>
    simp only [deliver, flacWrite]
    split
    · obtain ⟨h1, h2, _⟩ := foldl_push_frame (fun i => f.sample 0 i) (fun i => f.sample 1 i)
        (List.range f.blocksize) ({ s with m_flacBufferLength := 0 })
      exact ⟨h1, h2⟩
    · obtain ⟨h1, h2, _⟩ := foldl_push_frame (fun i => f.sample 0 i) (fun i => f.sample 0 i)
        (List.range f.blocksize) ({ s with m_flacBufferLength := 0 })
      exact ⟨h1, h2⟩

theorem toUInt64_half (x : Int) (h0 : 0 ≤ x) (hmax : x ≤ LONG_MAX) :
    toUInt64 (Int.tdiv x 2) = x.toNat / 2 := by
  unfold LONG_MAX at hmax
  unfold toUInt64
  rw [Int.tdiv_eq_ediv h0 (by decide)]
  omega

theorem framesFitFrom_next (api : LibFLAC D) (d : D) (cap : Nat)
    (h : FramesFitFrom api d cap) : FramesFitFrom api (api.process_single d).1 cap :=
  fun k fr hfr => h (k + 1) fr hfr

theorem framesFitFrom_of_delivers (api : LibFLAC D) (cap : Nat) (fs : List Frame) :
    ∀ d, Delivers api d fs → (∀ f ∈ fs, 2 * f.blocksize ≤ cap) → FramesFitFrom api d cap := by
  induction fs with
  | nil =>
    intro d hdel _ k fr hfr
    rw [hdel k] at hfr
    cases hfr
  | cons f fs ih =>
    intro d hdel hfit k fr hfr
    obtain ⟨hstep, hdel'⟩ := hdel
    cases k with
    | zero =>
      have hf : (api.process_single d).2.1 = some f := by rw [hstep]
      have e : (api.process_single (decoderAfter api 0 d)).2.1 = some f := hf
      rw [e] at hfr
      cases hfr
      exact hfit f (List.mem_cons_self _ _)
    | succ k =>
      exact ih _ hdel' (fun g hg => hfit g (List.mem_cons_of_mem _ hg)) k fr hfr

theorem process_single_inBounds (api : LibFLAC D) (cap : Nat) (s : SoundSourceFLAC D F) (i : Nat)
    (h : InBounds api cap s i) (h0 : s.m_flacBufferLength = 0) :
    InBounds api cap (process_single api s).1 0 := by
  obtain ⟨d, fb, lb, hd, hb, hl, hc1, hc2, hl1, hl2, _, hfit⟩ := h
  have hnext := framesFitFrom_next api d cap hfit
  cases hfr : (api.process_single d).2.1 with
  | none =>
    have hps : (process_single api s).1 =
        { s with m_decoder := some (api.process_single d).1,
                 calls := s.calls ++ [Call.process_single] } := by
      simp [process_single, hd, hfr, deliver]
    rw [hps]
    exact ⟨_, fb, lb, rfl, hb, hl, hc1, hc2, hl1, hl2, by simp [h0], hnext⟩
  | some f =>
    have hfitf : 2 * f.blocksize ≤ cap := hfit 0 f hfr
    have hps : (process_single api s).1 =
        { s with m_decoder := some (api.process_single d).1,
                 calls := s.calls ++ [Call.process_single],
                 m_flacBuffer := some ⟨fb.capacity, frameSamples f ++ fb.cells.drop (2 * f.blocksize)⟩,
                 m_flacBufferLength := 2 * f.blocksize } := by
      simp only [process_single, hd, hfr, deliver]
      rw [flacWrite_eq _ f fb.capacity fb.cells (by simpa using hb)]
    rw [hps]
    refine ⟨_, ⟨fb.capacity, frameSamples f ++ fb.cells.drop (2 * f.blocksize)⟩, lb, rfl, rfl, hl,
      hc1, hc2, ?_, hl2, ?_, hnext⟩
    · simp only [List.length_append, frameSamples_length, List.length_drop, hl1]
      omega
    · simp only; omega

theorem copySample_inBounds (api : LibFLAC D) (cap : Nat) (st : ReadLocals D F)
    (h : InBounds api cap st.self st.i) (hne : st.self.m_flacBufferLength ≠ 0) :
    InBounds api cap (copySample st).self (copySample st).i := by
  obtain ⟨d, fb, lb, hd, hb, hl, hc1, hc2, hl1, hl2, hi, hfit⟩ := h
  refine ⟨d, fb, lb, hd, hb, hl, hc1, hc2, hl1, hl2, ?_, hfit⟩
  simp only [copySample]
  omega

theorem readLoop_inBounds (api : LibFLAC D) (cap : Nat) (n : Nat) :
    ∀ st : ReadLocals D F, InBounds api cap st.self st.i →
      InBounds api cap (readLoop api n st).self (readLoop api n st).i := by
  induction n with
  | zero => intro st h; simpa [readLoop] using h
  | succ n ih =>
    intro st h
    rw [readLoop]
    by_cases h0 : st.self.m_flacBufferLength = 0
    · simp only [h0, if_true]
      have h1 := process_single_inBounds api cap st.self st.i h h0
      by_cases hok : (process_single api st.self).2 = true
      · by_cases hz : (process_single api st.self).1.m_flacBufferLength = 0
        · simpa [hok, hz] using h1
        · simp only [hok, hz, if_false, Bool.not_true]
          exact ih _ (copySample_inBounds api cap _ h1 hz)
      · simpa [hok] using h1
    · simp only [h0, if_false]
      exact ih _ (copySample_inBounds api cap st h h0)

theorem compact_inBounds (api : LibFLAC D) (cap : Nat) (s : SoundSourceFLAC D F) (i : Nat)
    (h : InBounds api cap s i) : InBounds api cap (compact s i) 0 := by
  obtain ⟨d, fb, lb, hd, hb, hl, hc1, hc2, hl1, hl2, hi, hfit⟩ := h
  by_cases h0 : s.m_flacBufferLength = 0
  · have e : compact s i = s := by simp [compact, h0]
    rw [e]
    exact ⟨d, fb, lb, hd, hb, hl, hc1, hc2, hl1, hl2, by omega, hfit⟩
  · have e : compact s i =
        { s with
          m_leftoverBuffer := some (lb.memcpy fb i s.m_flacBufferLength)
          m_flacBuffer := some (fb.memcpy (lb.memcpy fb i s.m_flacBufferLength) 0
            s.m_flacBufferLength) } := by
      simp [compact, h0, hb, hl]
    rw [e]
    refine ⟨d, _, _, hd, rfl, rfl, hc1, hc2, ?_, ?_, by simp only; omega, hfit⟩
    · simp only [Buffer.memcpy, List.length_append, List.length_map, List.length_range,
        List.length_drop, hl1]
      omega
    · simp only [Buffer.memcpy, List.length_append, List.length_map, List.length_range,
        List.length_drop, hl2]
      omega

theorem read_inBounds (api : LibFLAC D) (cap : Nat) (s : SoundSourceFLAC D F)
    (h : InBounds api cap s 0) (n : Nat) : InBounds api cap (read api s n).2 0 := by
  obtain ⟨d, hd⟩ : ∃ d, s.m_decoder = some d := by
    obtain ⟨d, _, _, hd, _⟩ := h
    exact ⟨d, hd⟩
  simp only [read, hd]
  exact compact_inBounds api cap _ _ (readLoop_inBounds api cap n _ h)

theorem readMany_inBounds (api : LibFLAC D) (cap : Nat) (sizes : List Nat) :
    ∀ s : SoundSourceFLAC D F, InBounds api cap s 0 →
      InBounds api cap (readMany api s sizes).2 0 := by
  induction sizes with
  | nil => intro s h; simpa [readMany] using h
  | cons n ns ih =>
    intro s h
    simpa [readMany] using ih _ (read_inBounds api cap s h n)

theorem readLoop_samplesWritten_le (api : LibFLAC D) (n : Nat) :
    ∀ st : ReadLocals D F, (readLoop api n st).samplesWritten ≤ st.samplesWritten + n := by
  induction n with
  | zero => intro st; simp [readLoop]
  | succ n ih =>
    intro st
    have step : ∀ st2 : ReadLocals D F, st2.samplesWritten = st.samplesWritten →
        (readLoop api n (copySample st2)).samplesWritten ≤ st.samplesWritten + (n + 1) := by
      intro st2 h2
      have := ih (copySample st2)
      simp only [copySample] at this ⊢
      omega
    rw [readLoop]
    by_cases h0 : st.self.m_flacBufferLength = 0
    · simp only [h0, if_true]
      by_cases hok : (process_single api st.self).2 = true
      · by_cases hz : (process_single api st.self).1.m_flacBufferLength = 0
        · simp [hok, hz]
        · simp only [hok, hz, if_false, Bool.not_true]
          exact step _ rfl
      · simp [hok]
    · simp only [h0, if_false]
      exact step st rfl

theorem forall₂_le_bounded (cs ns : List Nat) (h : List.Forall₂ (fun c n => c ≤ n) cs ns)
    (hall : ∀ n ∈ ns, n < UINT_RANGE) :
    List.Forall₂ (fun c n => c ≤ n ∧ c < UINT_RANGE) cs ns := by
  induction h with
  | nil => exact List.Forall₂.nil
  | cons hcn _ ih =>
    refine List.Forall₂.cons ⟨hcn, ?_⟩ (ih (fun n hn => hall n (List.mem_cons_of_mem _ hn)))
    have := hall _ (List.mem_cons_self _ _)
    omega

theorem read_count_le (api : LibFLAC D) (s : SoundSourceFLAC D F) (n : Nat) :
    (read api s n).1.1 ≤ n := by
  unfold read
  split
  · simp
  · have := readLoop_samplesWritten_le api n
      ({ self := s, samplesWritten := 0, i := 0, destBuffer := [] } : ReadLocals D F)
    simpa using this

/-! ## The claims -/

set_option maxRecDepth 100000

/-- C1, carry-over correctness of `read`, on runs that stay inside the arrays.  On
an open adapter whose scratch buffer is empty and whose two buffers are arrays of
`fb.capacity` elements (fewer than `2 ^ 32`), let every frame the decoder hands
over fit the arrays, let the next call of `process_single` succeed and hand over a
frame `f`, so that the decode yields `K = 2 * f.blocksize` interleaved samples
(`K ≤ fb.capacity`), and let the caller read `m` samples with `0 < m < K`.  That
read returns the first `m` samples of the frame.  The next read of any size
`n ≤ K - m` returns `n`, stores exactly samples `m .. m + n - 1` of the frame in
their order, and makes no call into libFLAC (the call log and the decoder state
are those left by the first read).  A next read of a size `n > K - m` below
`2 ^ 32` stores the `K - m` leftover samples first and returns at most `n`.  After
each of these reads no access has left the arrays. -/
theorem read_carry_over (api : LibFLAC D) (s : SoundSourceFLAC D F) (d d1 : D) (fb lb : Buffer)
    (f : Frame) (m : Nat)
    (hd : s.m_decoder = some d) (hb : s.m_flacBuffer = some fb)
    (hl : s.m_leftoverBuffer = some lb) (h0 : s.m_flacBufferLength = 0)
    (hfb : fb.cells.length = fb.capacity) (hlb : lb.cells.length = lb.capacity)
    (hlbcap : lb.capacity = fb.capacity) (hcap : fb.capacity < UINT_RANGE)
    (hfit : FramesFitFrom api d fb.capacity)
    (hstep : api.process_single d = (d1, some f, true))
    (hm : 0 < m) (hmk : m < 2 * f.blocksize) :
    (process_single api s).1.m_flacBufferLength = 2 * f.blocksize ∧
    2 * f.blocksize ≤ fb.capacity ∧ 2 * f.blocksize < UINT_RANGE ∧
    (read api s m).1 = (m, (frameSamples f).take m) ∧
    InBounds api fb.capacity (read api s m).2 0 ∧
    (∀ n, n ≤ 2 * f.blocksize - m →
      (read api (read api s m).2 n).1 = (n, ((frameSamples f).drop m).take n) ∧
      (read api (read api s m).2 n).2.calls = (read api s m).2.calls ∧
      (read api (read api s m).2 n).2.m_decoder = (read api s m).2.m_decoder ∧
      InBounds api fb.capacity (read api (read api s m).2 n).2 0) ∧
    (∀ n, 2 * f.blocksize - m < n → n < UINT_RANGE →
      (read api (read api s m).2 n).1.2.take (2 * f.blocksize - m) = (frameSamples f).drop m ∧
      (read api (read api s m).2 n).1.1 ≤ n ∧
      InBounds api fb.capacity (read api (read api s m).2 n).2 0) := by
  obtain ⟨h1, h2⟩ := read_first_frame api s d d1 fb lb f m hd hb hl h0 hstep hm hmk
  have hlen : ((frameSamples f).drop m).length = 2 * f.blocksize - m := by
    simp [frameSamples_length]
  have hfitf : 2 * f.blocksize ≤ fb.capacity :=
    hfit 0 f (by show (api.process_single d).2.1 = some f; rw [hstep])
  have hin : InBounds api fb.capacity s 0 :=
    ⟨d, fb, lb, hd, hb, hl, rfl, hlbcap, hfb, by omega, by omega, hfit⟩
  have hin1 := read_inBounds api fb.capacity s hin m
  refine ⟨?_, hfitf, by omega, h1, hin1, ?_, ?_⟩
  · simp only [process_single, hd, hstep, deliver]
    rw [flacWrite_eq _ f fb.capacity fb.cells (by simpa using hb)]
  · intro n hn
    obtain ⟨a, b, c⟩ := read_of_buffered_le api _ _ h2 n (by omega)
    exact ⟨a, b, c, read_inBounds api fb.capacity _ hin1 n⟩
  · intro n hn _
    have := read_of_buffered_ge api _ _ h2 n (by omega)
    rw [hlen] at this
    exact ⟨this, read_count_le api _ n, read_inBounds api fb.capacity _ hin1 n⟩

/-- Witness for C1: on the two-channel stream, after a read of 3 samples the next
read of 5 returns samples 3 to 7 of the first frame. -/
theorem read_carry_over_witness :
    (read (scripted (stream 2 16)) (read (scripted (stream 2 16)) (opened 2) 3).2 5).1 =
      (5, ((frameSamples (tone 2 16 0)).drop 3).take 5) :=
  ((read_carry_over (scripted (stream 2 16)) (opened 2) (stream 2 16).frames [tone 2 16 1000]
    (Buffer.alloc 32) (Buffer.alloc 32) (tone 2 16 0) 3 rfl rfl rfl rfl (by decide) (by decide)
    rfl (by decide)
    (framesFitFrom_of_delivers _ _ _ _ (scripted_delivers _ _) (by decide)) rfl (by decide)
    (by decide)).2.2.2.2.2.1 5 (by decide)).1

/-- C2, seek invalidation, evaluated where the code departs from it.  On the
two-channel stream, after a read of 1 sample has left 31 decoded samples
undelivered: a seek to position 100, past the end, fails inside libFLAC and
leaves `m_flacBufferLength` at 31 (only `m_leftoverBufferLength` is reset), and
the next read returns two of the old samples without any call into libFLAC; a seek
to position 41, which succeeds, leaves the 24 samples that libFLAC handed over
during the seek. -/
theorem seek_keeps_buffered_samples :
    (read (scripted (stream 2 16)) (opened 2) 1).2.m_flacBufferLength = 31 ∧
    (seek (scripted (stream 2 16)) (read (scripted (stream 2 16)) (opened 2) 1).2 100).2.m_flacBufferLength
      = 31 ∧
    (seek (scripted (stream 2 16)) (read (scripted (stream 2 16)) (opened 2) 1).2
      100).2.m_leftoverBufferLength = 0 ∧
    (read (scripted (stream 2 16))
      (seek (scripted (stream 2 16)) (read (scripted (stream 2 16)) (opened 2) 1).2 100).2 2).1
      = (2, [100, 1]) ∧
    (read (scripted (stream 2 16))
      (seek (scripted (stream 2 16)) (read (scripted (stream 2 16)) (opened 2) 1).2 100).2 2).2.calls
      = (seek (scripted (stream 2 16)) (read (scripted (stream 2 16)) (opened 2) 1).2 100).2.calls ∧
    (seek (scripted (stream 2 16)) (read (scripted (stream 2 16)) (opened 2) 1).2 41).2.m_flacBufferLength
      = 24 := by
  refine ⟨?_, ?_, ?_, ?_, ?_, ?_⟩ <;> rfl

/-- C3, buffer capacity, evaluated where the code departs from it.  For the
one-channel stream with maximum block size 16, `open` allocates both buffers with
`16 * 1` elements; decoding the first frame, of block size 16, makes `flacWrite`
store 32 samples, so the scratch buffer holds more samples than it has elements,
the last store being at index 31. -/
theorem flacWrite_exceeds_capacity_mono :
    (flacOpen (scripted (stream 1 16)) fresh).1 = Result.OK ∧
    (opened 1).m_maxBlocksize * (opened 1).m_iChannels = 16 ∧
    (opened 1).m_flacBuffer.map Buffer.capacity = some 16 ∧
    (opened 1).m_leftoverBuffer.map Buffer.capacity = some 16 ∧
    (tone 1 16 0).blocksize ≤ (opened 1).m_maxBlocksize ∧
    (flacWrite (opened 1) (tone 1 16 0)).1.m_flacBufferLength = 32 ∧
    (process_single (scripted (stream 1 16)) (opened 1)).1.m_flacBufferLength = 32 ∧
    (process_single (scripted (stream 1 16)) (opened 1)).1.m_flacBuffer.map
      (fun b => b.cells.length) = some 32 := by
  refine ⟨?_, ?_, ?_, ?_, ?_, ?_, ?_, ?_⟩ <;> decide

/-- C4 as stated fails: on the three-channel stream (`S = 32` samples per channel,
`C = 3`, two frames of 16 delivered completely and in order) the reads of sizes 40,
40, 40 issued from offset 0 return 40, 24 and then 0, which sum to 64, while
`length()` is `32 * 3 = 96`. -/
theorem read_total_three_channels :
    (flacOpen (scripted (stream 3 16)) fresh).1 = Result.OK ∧
    (opened 3).m_decoder = some (stream 3 16).frames ∧
    Delivers (scripted (stream 3 16)) (stream 3 16).frames (stream 3 16).frames ∧
    totalBlocksize (stream 3 16).frames = 32 ∧
    (opened 3).m_samples = 32 ∧ (opened 3).m_iChannels = 3 ∧
    length (opened 3) = 96 ∧
    readCounts (scripted (stream 3 16)) (opened 3) [40, 40, 40] = [40, 24, 0] ∧
    40 + 24 ≠ length (opened 3) :=
  ⟨by decide, by decide, scripted_delivers _ _, by decide, by decide, by decide, by decide,
    by decide, by decide⟩

/-- C4, amended: round-trip sample count in output samples, for streams of two or
more channels.  On an open adapter with an empty scratch buffer, declared channel
count `C ≥ 2`, both buffers arrays of `m_maxBlocksize * C` elements (fewer than
`2 ^ 32`), whose decoder delivers the frames `fs` completely and in order (each
with at least one sample and at most `m_maxBlocksize`, `S = totalBlocksize fs`
samples per channel in all, `2 * S < 2 ^ 32`), for every sequence of reads of
positive sizes below `2 ^ 32` issued back to back with no seek: the returned counts
sum to `min (sum of sizes) (2 * S)`; whenever a read returns 0 the counts before it
sum to exactly `2 * S`; no read returns more than was asked; every count and their
sum are below `2 ^ 32`; every frame fits the arrays and no access leaves them; and
`2 * S` is `length()` when `C = 2` and `m_samples = S`. -/
theorem read_total_two_per_sample (api : LibFLAC D) (s : SoundSourceFLAC D F) (d : D)
    (fb lb : Buffer) (fs : List Frame) (sizes : List Nat)
    (hd : s.m_decoder = some d) (hb : s.m_flacBuffer = some fb)
    (hl : s.m_leftoverBuffer = some lb) (h0 : s.m_flacBufferLength = 0)
    (hch : 2 ≤ s.m_iChannels)
    (hfbcap : fb.capacity = s.m_maxBlocksize * s.m_iChannels)
    (hlbcap : lb.capacity = s.m_maxBlocksize * s.m_iChannels)
    (hfb : fb.cells.length = fb.capacity) (hlb : lb.cells.length = lb.capacity)
    (hcap : s.m_maxBlocksize * s.m_iChannels < UINT_RANGE)
    (hdel : Delivers api d fs) (hpos : ∀ f ∈ fs, 0 < f.blocksize)
    (hmax : ∀ f ∈ fs, f.blocksize ≤ s.m_maxBlocksize)
    (htotal : 2 * totalBlocksize fs < UINT_RANGE)
    (hsizes : ∀ n ∈ sizes, 0 < n ∧ n < UINT_RANGE) :
    (readCounts api s sizes).sum = min sizes.sum (2 * totalBlocksize fs) ∧
    (∀ k, (readCounts api s sizes)[k]? = some 0 →
      ((readCounts api s sizes).take k).sum = 2 * totalBlocksize fs) ∧
    List.Forall₂ (fun c n => c ≤ n ∧ c < UINT_RANGE) (readCounts api s sizes) sizes ∧
    (readCounts api s sizes).sum < UINT_RANGE ∧
    (∀ f ∈ fs, 2 * f.blocksize ≤ s.m_maxBlocksize * s.m_iChannels ∧
      2 * f.blocksize < UINT_RANGE) ∧
    InBounds api (s.m_maxBlocksize * s.m_iChannels) (readMany api s sizes).2 0 ∧
    (s.m_iChannels = 2 → s.m_samples = totalBlocksize fs →
      2 * totalBlocksize fs = length s) := by
  have hready : Ready api s (allSamples fs) :=
    ⟨d, fb, lb, fs, hd, hb, hl, by omega, hdel, hpos, by simp [h0]⟩
  have hfit : ∀ f ∈ fs, 2 * f.blocksize ≤ s.m_maxBlocksize * s.m_iChannels := by
    intro f hf
    have h1 := hmax f hf
    calc 2 * f.blocksize = f.blocksize * 2 := Nat.mul_comm _ _
      _ ≤ s.m_maxBlocksize * s.m_iChannels := Nat.mul_le_mul h1 hch
  have hin : InBounds api (s.m_maxBlocksize * s.m_iChannels) s 0 :=
    ⟨d, fb, lb, hd, hb, hl, hfbcap, hlbcap, by omega, by omega, by omega,
      framesFitFrom_of_delivers api _ fs d hdel hfit⟩
  have hsum := (readMany_ready api sizes s _ hready).1
  rw [allSamples_length] at hsum
  refine ⟨hsum, ?_, ?_, ?_, ?_, readMany_inBounds api _ sizes s hin, ?_⟩
  · intro k hk
    rw [readCounts_zero api sizes s _ hready (fun n hn => (hsizes n hn).1) k hk,
      allSamples_length]
  · exact forall₂_le_bounded _ _ (readCounts_le api sizes s _ hready)
      (fun n hn => (hsizes n hn).2)
  · rw [hsum]; omega
  · intro f hf
    have := hfit f hf
    exact ⟨this, by omega⟩
  · intro hc hs
    rw [length, hc, hs, Nat.mul_comm]

/-- Witness for the amended C4: the two-channel stream, read in sizes 40, 40, 40. -/
theorem read_total_two_per_sample_witness :
    (readCounts (scripted (stream 2 16)) (opened 2) [40, 40, 40]).sum =
      min [40, 40, 40].sum (2 * totalBlocksize (stream 2 16).frames) :=
  (read_total_two_per_sample (scripted (stream 2 16)) (opened 2) (stream 2 16).frames
    (Buffer.alloc 32) (Buffer.alloc 32) (stream 2 16).frames [40, 40, 40] rfl rfl rfl rfl
    (by decide) (by decide) (by decide) (by decide) (by decide) (by decide)
    (scripted_delivers _ _) (by decide) (by decide) (by decide) (by decide)).1

/-- C5, seek unit conversion and result.  For every position `x` with
`0 ≤ x ≤ LONG_MAX`, even or odd: with a session open, `seek` returns `x` and makes
exactly one call into libFLAC, `seek_absolute` with `x / 2`, whatever that call
answers; the session is then in the state that call left.  With no session, `seek`
returns 0 and the state, call log included, is unchanged. -/
theorem seek_converts_and_returns (api : LibFLAC D) (s : SoundSourceFLAC D F) (x : Int)
    (h0 : 0 ≤ x) (hmax : x ≤ LONG_MAX) :
    (∀ d, s.m_decoder = some d →
      (seek api s x).1 = x ∧
      (seek api s x).2.calls = s.calls ++ [Call.seek_absolute (x.toNat / 2)] ∧
      (seek api s x).2.m_decoder = some (api.seek_absolute d (x.toNat / 2)).1) ∧
    (s.m_decoder = none → seek api s x = (0, s)) := by
  constructor
  · intro d hd
    refine ⟨?_, ?_, ?_⟩
    · simp only [seek, hd]
    · simp only [seek, hd, toUInt64_half x h0 hmax]
      exact (deliver_frame _ _).1
    · simp only [seek, hd, toUInt64_half x h0 hmax]
      exact (deliver_frame _ _).2
  · intro hd
    simp only [seek, hd]

/-- Witness for C5: a seek to the odd position 41 on the opened two-channel stream. -/
theorem seek_converts_and_returns_witness :
    (seek (scripted (stream 2 16)) (opened 2) 41).1 = 41 ∧
    (seek (scripted (stream 2 16)) (opened 2) 41).2.calls =
      (opened 2).calls ++ [Call.seek_absolute ((41 : Int).toNat / 2)] ∧
    (seek (scripted (stream 2 16)) (opened 2) 41).2.m_decoder =
      some ((scripted (stream 2 16)).seek_absolute (stream 2 16).frames ((41 : Int).toNat / 2)).1 :=
  (seek_converts_and_returns (scripted (stream 2 16)) (opened 2) 41 (by decide)
    (by decide)).1 (stream 2 16).frames rfl

/-- C7, evaluated where the code departs from it.  When `set_metadata_respond`
reports failure, `open` returns ERR straight away: the decoder allocated just
before is neither finished nor deleted and `m_decoder` still points to it, so a
later `seek` does not return 0 but calls into libFLAC on that decoder. -/
theorem open_keeps_decoder_when_respond_fails :
    (flacOpen (scripted { stream 2 16 with respondOk := false }) fresh).1 = Result.ERR ∧
    (flacOpen (scripted { stream 2 16 with respondOk := false }) fresh).2.m_decoder =
      some (stream 2 16).frames ∧
    (flacOpen (scripted { stream 2 16 with respondOk := false }) fresh).2.calls =
      [Call.stream_decoder_new, Call.set_metadata_respond] ∧
    (seek (scripted { stream 2 16 with respondOk := false })
      (flacOpen (scripted { stream 2 16 with respondOk := false }) fresh).2 100).1 = 100 ∧
    (seek (scripted { stream 2 16 with respondOk := false })
      (flacOpen (scripted { stream 2 16 with respondOk := false }) fresh).2 100).2.calls =
      [Call.stream_decoder_new, Call.set_metadata_respond, Call.seek_absolute 50] := by
  refine ⟨?_, ?_, ?_, ?_, ?_⟩ <;> decide

/-- C8, bit-depth rejection.  Let the decoder be allocated, the comment
registration and the stream init succeed, and the metadata scan succeed with
`info` the STREAMINFO block it delivers last.  If `info.bits_per_sample` is not
16, `open` returns ERR, finishes and deletes the decoder, leaves `m_decoder` null
and both buffer pointers as they were (nothing is allocated).  If it is 16, `open`
returns OK and holds the session in the state the scan left. -/
theorem open_checks_bit_depth (api : LibFLAC D) (s : SoundSourceFLAC D F) (d0 : D)
    (info : StreamInfo)
    (hnew : api.stream_decoder_new = some d0)
    (hresp : (api.set_metadata_respond d0).2 = true)
    (hinit : (api.init_stream (api.set_metadata_respond d0).1).2 = true)
    (hscan : (api.process_until_end_of_metadata
      (api.init_stream (api.set_metadata_respond d0).1).1).2.2 = true)
    (hinfo : lastStreamInfo (api.process_until_end_of_metadata
      (api.init_stream (api.set_metadata_respond d0).1).1).2.1 = some info) :
    (info.bits_per_sample ≠ 16 →
      (flacOpen api s).1 = Result.ERR ∧
      (flacOpen api s).2.m_decoder = none ∧
      (flacOpen api s).2.m_flacBuffer = s.m_flacBuffer ∧
      (flacOpen api s).2.m_leftoverBuffer = s.m_leftoverBuffer ∧
      (flacOpen api s).2.calls = s.calls ++
        [Call.stream_decoder_new, Call.set_metadata_respond, Call.init_stream,
          Call.process_until_end_of_metadata, Call.finish, Call.delete]) ∧
    (info.bits_per_sample = 16 →
      (flacOpen api s).1 = Result.OK ∧
      (flacOpen api s).2.m_decoder = some (api.process_until_end_of_metadata
        (api.init_stream (api.set_metadata_respond d0).1).1).1) := by
  have hfold := foldl_flacMetadata_frame
    (api.process_until_end_of_metadata (api.init_stream (api.set_metadata_respond d0).1).1).2.1
    ({ s with
        m_decoder := some (api.process_until_end_of_metadata
          (api.init_stream (api.set_metadata_respond d0).1).1).1
        calls := s.calls ++ [Call.stream_decoder_new] ++ [Call.set_metadata_respond] ++
          [Call.init_stream] ++ [Call.process_until_end_of_metadata] } : SoundSourceFLAC D F)
  obtain ⟨f1, f2, f3, f4, f5⟩ := hfold
  rw [hinfo] at f5
  simp only [Option.map_some', Option.getD_some] at f5
  constructor
  · intro hbps
    simp only [flacOpen, hnew, hresp, hinit, hscan, f5, hbps, releaseDecoder, f2, f3, f4,
      Bool.not_true, Bool.false_eq_true, if_false, ne_eq, not_false_eq_true, if_true]
    simp
  · intro hbps
    simp only [flacOpen, hnew, hresp, hinit, hscan, f5, hbps, releaseDecoder,
      Bool.not_true, Bool.false_eq_true, if_false, ne_eq, not_true_eq_false]
    refine ⟨trivial, ?_⟩
    split <;> split <;> exact f1

/-- Witness for C8: the two-channel stream declared with 24 bits per sample. -/
theorem open_checks_bit_depth_witness :
    (flacOpen (scripted (stream 2 24)) fresh).1 = Result.ERR ∧
    (flacOpen (scripted (stream 2 24)) fresh).2.m_decoder = none ∧
    (flacOpen (scripted (stream 2 24)) fresh).2.m_flacBuffer = fresh.m_flacBuffer ∧
    (flacOpen (scripted (stream 2 24)) fresh).2.m_leftoverBuffer = fresh.m_leftoverBuffer ∧
    (flacOpen (scripted (stream 2 24)) fresh).2.calls = fresh.calls ++
      [Call.stream_decoder_new, Call.set_metadata_respond, Call.init_stream,
        Call.process_until_end_of_metadata, Call.finish, Call.delete] :=
  (open_checks_bit_depth (scripted (stream 2 24)) fresh (stream 2 24).frames
    ⟨32, 2, 44100, 24, 16, 16, 0, 0⟩ rfl rfl rfl rfl rfl).1 (by decide)

/-- C9, metadata tag parsing in `setTag`.  For every comment entry `k=v` whose key
`k` contains no `=` (the value `v` may), and whatever `toUpper` and `toFloat` are:
if `toUpper k` is ARTIST, TITLE, ALBUM, COMMENT, DATE, GENRE or TRACKNUMBER, the
field for that key (artist, title, album, comment, year, genre, track number)
becomes exactly `v` and nothing else changes; if `toUpper k` is BPM, only the BPM
value changes (to `toFloat v`); if `toUpper k` is none of these eight keys, the
state is unchanged. -/
theorem setTag_sets_field (qt : QtText F) (s : SoundSourceFLAC D F) (k v : QString)
    (hk : '=' ∉ k) :
    (qt.toUpper k = "ARTIST".toList → setTag qt s (k ++ '=' :: v) = { s with m_sArtist := v }) ∧
    (qt.toUpper k = "TITLE".toList → setTag qt s (k ++ '=' :: v) = { s with m_sTitle := v }) ∧
    (qt.toUpper k = "ALBUM".toList → setTag qt s (k ++ '=' :: v) = { s with m_sAlbum := v }) ∧
    (qt.toUpper k = "COMMENT".toList →
      setTag qt s (k ++ '=' :: v) = { s with m_sComment := v }) ∧
    (qt.toUpper k = "DATE".toList → setTag qt s (k ++ '=' :: v) = { s with m_sYear := v }) ∧
    (qt.toUpper k = "GENRE".toList → setTag qt s (k ++ '=' :: v) = { s with m_sGenre := v }) ∧
    (qt.toUpper k = "TRACKNUMBER".toList →
      setTag qt s (k ++ '=' :: v) = { s with m_sTrackNumber := v }) ∧
    (qt.toUpper k = "BPM".toList →
      setTag qt s (k ++ '=' :: v) = { s with m_fBPM := qt.toFloat v }) ∧
    (qt.toUpper k ∉ ["ARTIST".toList, "TITLE".toList, "ALBUM".toList, "COMMENT".toList,
        "DATE".toList, "GENRE".toList, "TRACKNUMBER".toList, "BPM".toList] →
      setTag qt s (k ++ '=' :: v) = s) := by
  obtain ⟨e1, e2⟩ := setTag_split k v hk
  unfold setTag
  simp only [e1, e2]
  refine ⟨?_, ?_, ?_, ?_, ?_, ?_, ?_, ?_, ?_⟩
  · intro h; rw [h]; rfl
  · intro h; rw [h]; rfl
  · intro h; rw [h]; rfl
  · intro h; rw [h]; rfl
  · intro h; rw [h]; rfl
  · intro h; rw [h]; rfl
  · intro h; rw [h]; rfl
  · intro h; rw [h]; rfl
  · intro h
    simp only [List.mem_cons, List.mem_singleton, not_or, List.not_mem_nil, or_false] at h
    obtain ⟨h1, h2, h3, h4, h5, h6, h7, h8⟩ := h
    simp only [h1, h2, h3, h4, h5, h6, h7, h8, if_false]

/-- Witness for C9: the entry "ARTIST=Test Artist" sets the artist to "Test Artist",
and so does the same entry with its key in mixed case. -/
theorem setTag_sets_field_witness :
    setTag asciiText fresh ("ARTIST".toList ++ '=' :: "Test Artist".toList) =
      { fresh with m_sArtist := "Test Artist".toList } ∧
    setTag asciiText fresh ("Artist".toList ++ '=' :: "Test Artist".toList) =
      { fresh with m_sArtist := "Test Artist".toList } :=
  ⟨(setTag_sets_field asciiText fresh "ARTIST".toList "Test Artist".toList (by decide)).1
      (by decide),
    (setTag_sets_field asciiText fresh "Artist".toList "Test Artist".toList (by decide)).1
      (by decide)⟩

/-- C10, short read on exhaustion, on runs that stay inside the arrays.  On an open
adapter whose two buffers are arrays of `fb.capacity` elements (fewer than
`2 ^ 32`), that holds `m_flacBufferLength ≤ fb.capacity` undelivered samples, and
whose decoder delivers the frames `fs` (each with at least one sample and fitting
the arrays, `2 * blocksize ≤ fb.capacity`) and is then at the end of the stream,
where every further single-frame decode hands over no samples whether it reports
success or failure: a read of a size below `2 ^ 32` and above the
`R = m_flacBufferLength + 2 * totalBlocksize fs` samples that remain returns `R`,
which is less than the request, stores exactly the remaining samples, and every
later read of any size below `2 ^ 32` returns 0.  Every count, of a read or of a
decode, is below `2 ^ 32`, and no access leaves the arrays. -/
theorem read_short_at_end (api : LibFLAC D) (s : SoundSourceFLAC D F) (d : D) (fb lb : Buffer)
    (fs : List Frame) (size : Nat)
    (hd : s.m_decoder = some d) (hb : s.m_flacBuffer = some fb)
    (hl : s.m_leftoverBuffer = some lb)
    (hfb : fb.cells.length = fb.capacity) (hlb : lb.cells.length = lb.capacity)
    (hlbcap : lb.capacity = fb.capacity) (hcap : fb.capacity < UINT_RANGE)
    (hlen : s.m_flacBufferLength ≤ fb.capacity)
    (hdel : Delivers api d fs) (hpos : ∀ f ∈ fs, 0 < f.blocksize)
    (hfit : ∀ f ∈ fs, 2 * f.blocksize ≤ fb.capacity)
    (hsize : s.m_flacBufferLength + 2 * totalBlocksize fs < size)
    (hsize32 : size < UINT_RANGE) :
    (read api s size).1.1 = s.m_flacBufferLength + 2 * totalBlocksize fs ∧
    (read api s size).1.1 < size ∧
    (read api s size).1.1 < UINT_RANGE ∧
    (∀ f ∈ fs, 2 * f.blocksize < UINT_RANGE) ∧
    (read api s size).1.2 = fb.cells.take s.m_flacBufferLength ++ allSamples fs ∧
    InBounds api fb.capacity (read api s size).2 0 ∧
    ∀ sizes, (∀ n ∈ sizes, n < UINT_RANGE) →
      (∀ c ∈ readCounts api (read api s size).2 sizes, c = 0) ∧
      InBounds api fb.capacity (readMany api (read api s size).2 sizes).2 0 := by
  have hready : Ready api s (fb.cells.take s.m_flacBufferLength ++ allSamples fs) :=
    ⟨d, fb, lb, fs, hd, hb, hl, by omega, hdel, hpos, rfl⟩
  have hin : InBounds api fb.capacity s 0 :=
    ⟨d, fb, lb, hd, hb, hl, rfl, hlbcap, hfb, by omega, by omega,
      framesFitFrom_of_delivers api _ fs d hdel hfit⟩
  have hin1 := read_inBounds api fb.capacity s hin size
  obtain ⟨r1, r2⟩ := read_ready api s _ hready size
  have hrest : (fb.cells.take s.m_flacBufferLength ++ allSamples fs).length =
      s.m_flacBufferLength + 2 * totalBlocksize fs := by
    rw [List.length_append, allSamples_length, List.length_take, Nat.min_eq_left (by omega)]
  have hcount : (read api s size).1.1 = s.m_flacBufferLength + 2 * totalBlocksize fs := by
    rw [r1, hrest]; exact Nat.min_eq_right (by omega)
  refine ⟨hcount, by omega, by omega, ?_, ?_, hin1, ?_⟩
  · intro f hf
    have := hfit f hf
    omega
  · rw [r1]
    exact List.take_of_length_le (by omega)
  · intro sizes _
    have hdrop : (fb.cells.take s.m_flacBufferLength ++ allSamples fs).drop size = [] :=
      List.drop_of_length_le (by omega)
    rw [hdrop] at r2
    exact ⟨readCounts_all_zero api sizes _ r2, readMany_inBounds api _ sizes _ hin1⟩

/-- Witness for C10: a request of 100 samples on the opened two-channel stream,
which holds 64. -/
theorem read_short_at_end_witness :
    (read (scripted (stream 2 16)) (opened 2) 100).1.1 =
      (opened 2).m_flacBufferLength + 2 * totalBlocksize (stream 2 16).frames ∧
    (read (scripted (stream 2 16)) (opened 2) 100).1.1 < 100 ∧
    (read (scripted (stream 2 16)) (opened 2) 100).1.1 < UINT_RANGE := by
  have h := read_short_at_end (scripted (stream 2 16)) (opened 2) (stream 2 16).frames
    (Buffer.alloc 32) (Buffer.alloc 32) (stream 2 16).frames 100 rfl rfl rfl (by decide)
    (by decide) rfl (by decide) (by decide) (scripted_delivers _ _) (by decide) (by decide)
    (by decide) (by decide)
  exact ⟨h.1, h.2.1, h.2.2.1⟩

theorem toSizeT_eq_zero_iff (w : Nat) (r : Int) (hlo : -((2 : Int) ^ w) < r)
    (hhi : r < (2 : Int) ^ w) : toSizeT w r = 0 ↔ r = 0 := by
  unfold toSizeT
  generalize (2 : Int) ^ w = m at *
  constructor
  · intro h
    have h2 : 0 ≤ r % m := Int.emod_nonneg r (by omega)
    have h3 : r % m = 0 := by omega
    rcases Int.lt_or_le r 0 with hn | hn
    · have h4 : (r + m) % m = r + m := Int.emod_eq_of_lt (by omega) (by omega)
      rw [Int.add_emod_self] at h4
      omega
    · have h4 : r % m = r := Int.emod_eq_of_lt hn hhi
      omega
  · intro h
    subst h
    simp

theorem toSizeT_neg_one (w : Nat) (hw : (1 : Int) < (2 : Int) ^ w) :
    toSizeT w (-1) = 2 ^ w - 1 := by
  unfold toSizeT
  have hcast : ((2 ^ w : Nat) : Int) = (2 : Int) ^ w := by push_cast; rfl
  have h4 : (-1 + (2 : Int) ^ w) % (2 : Int) ^ w = -1 + (2 : Int) ^ w :=
    Int.emod_eq_of_lt (by omega) (by omega)
  rw [Int.add_emod_self] at h4
  rw [h4]
  omega

/-- C11, status of the byte-read callback.  Let `r` be the result of the file read,
with `-(2 ^ w) < r < 2 ^ w`: this holds for every result `QIODevice::read` can
return (`-1`, or a count between 0 and the requested size, which is below `2 ^ w`)
and, for `w = 64`, for every `qint64`.  Then `flacRead` stores `r` converted to
`size_t` (`r` modulo `2 ^ w`) in `*bytes`; it returns END_OF_STREAM exactly when
`r = 0` and CONTINUE exactly when `r ≠ 0`; it never returns ABORT; and the error
result `r = -1` is reported as CONTINUE with the byte count `2 ^ w - 1`. -/
theorem flacRead_status (w : Nat) (fileRead : Int → Int) (bytes : Nat)
    (hlo : -((2 : Int) ^ w) < fileRead (toInt64 bytes))
    (hhi : fileRead (toInt64 bytes) < (2 : Int) ^ w) :
    (flacRead w fileRead bytes).1 = toSizeT w (fileRead (toInt64 bytes)) ∧
    ((flacRead w fileRead bytes).2 = ReadStatus.END_OF_STREAM ↔
      fileRead (toInt64 bytes) = 0) ∧
    ((flacRead w fileRead bytes).2 = ReadStatus.CONTINUE ↔
      fileRead (toInt64 bytes) ≠ 0) ∧
    (flacRead w fileRead bytes).2 ≠ ReadStatus.ABORT ∧
    (fileRead (toInt64 bytes) = -1 →
      flacRead w fileRead bytes = (2 ^ w - 1, ReadStatus.CONTINUE)) := by
  have hz := toSizeT_eq_zero_iff w (fileRead (toInt64 bytes)) hlo hhi
  by_cases h0 : toSizeT w (fileRead (toInt64 bytes)) = 0
  · have hr : fileRead (toInt64 bytes) = 0 := hz.mp h0
    have hval : flacRead w fileRead bytes = (0, ReadStatus.END_OF_STREAM) := by
      simp [flacRead, h0]
    rw [hval]
    refine ⟨h0.symm, ?_, ?_, ?_, ?_⟩
    · simp [hr]
    · simp [hr]
    · simp
    · intro h; omega
  · have hr : fileRead (toInt64 bytes) ≠ 0 := fun h => h0 (hz.mpr h)
    have hpos : toSizeT w (fileRead (toInt64 bytes)) > 0 := Nat.pos_of_ne_zero h0
    have hval : flacRead w fileRead bytes =
        (toSizeT w (fileRead (toInt64 bytes)), ReadStatus.CONTINUE) := by
      simp [flacRead, hpos]
    rw [hval]
    refine ⟨rfl, ?_, ?_, ?_, ?_⟩
    · simp [hr]
    · simp [hr]
    · simp
    · intro h
      rw [h] at hlo ⊢
      rw [toSizeT_neg_one w (by omega)]

/-- Witness for C11: a 64-bit `size_t` and a file read that fails with `-1` on a
request of 8192 bytes. -/
theorem flacRead_status_witness :
    flacRead 64 (fun _ => -1) 8192 = (2 ^ 64 - 1, ReadStatus.CONTINUE) :=
  (flacRead_status 64 (fun _ => -1) 8192 (by norm_num) (by norm_num)).2.2.2.2 rfl

end SoundSourceFLAC
